import Mathlib

/-!
Verification of the braille grid codec, the scaling transform and the
live-renderer formatting/lifecycle of the unicode-animations package.

Python strings are modelled as lists of Unicode codepoints (`Text`), with
the newline character `10` as the only line terminator occurring in the
texts this library manipulates.  Boolean dot grids are lists of rows
(`Grid`).  Imperative in-place cell updates are modelled by folding the
`setTrue` update over the list of positions the loops visit, in loop
order.  The Python arbitrary-precision bitwise AND (twos-complement on
negative operands) is modelled by the executable `pyLand`.
-/

set_option maxRecDepth 100000

/-- A Python `str`, as its list of Unicode codepoints. -/
abbrev Text := List Nat

/-- A 2-D boolean dot grid, `grid[row][col] = true` meaning the dot is raised. -/
abbrev Grid := List (List Bool)

/-- Helper for `splitlines`: accumulates the current line (reversed). -/
def splitlinesGo : Text → Text → List Text
  | [], acc => [acc.reverse]
  | c :: rest, acc =>
    if c = 10 then
      acc.reverse :: (if rest.isEmpty then [] else splitlinesGo rest [])
    else
      splitlinesGo rest (c :: acc)

/-- Models Python `str.splitlines()` for texts whose only line terminator is
the newline codepoint `10`: the empty text has no lines, and a trailing
newline does not open a final empty line. -/
def splitlines (t : Text) : List Text :=
  if t.isEmpty then [] else splitlinesGo t []

/-- Models `"\n".join(lines)`. -/
def joinNl : List Text → Text
  | [] => []
  | [l] => l
  | l :: ls => l ++ 10 :: joinNl ls

/-- Fuel-driven binary recursion computing `m AND (NOT n)` on naturals
(the fuel `f` only needs to cover the bit length of `m`). -/
def ldiffAux : Nat → Nat → Nat → Nat
  | 0, _, _ => 0
  | f + 1, m, n => (if m % 2 = 1 ∧ n % 2 = 0 then 1 else 0) + 2 * ldiffAux f (m / 2) (n / 2)

/-- `m AND (NOT n)` on naturals, executable (fuel `m` bounds the bit length). -/
def natLdiff (m n : Nat) : Nat := ldiffAux m m n

/-- The Python bitwise `&` on arbitrary-precision integers: twos-complement
AND, where a negative number has infinitely many leading one bits. -/
def pyLand : Int → Int → Int
  | .ofNat m, .ofNat n => .ofNat (m &&& n)
  | .ofNat m, .negSucc n => .ofNat (natLdiff m n)
  | .negSucc m, .ofNat n => .ofNat (natLdiff n m)
  | .negSucc m, .negSucc n => .negSucc (m ||| n)

/-- The fixed dot-to-bit table of the braille codec (`BRAILLE_DOT_MAP`). -/
def BRAILLE_DOT_MAP : List (List Nat) :=
  [[0x01, 0x08], [0x02, 0x10], [0x04, 0x20], [0x40, 0x80]]

/-- `BRAILLE_DOT_MAP[r][d]` with out-of-range access giving `0`. -/
def dotBit (r d : Nat) : Nat := (BRAILLE_DOT_MAP.getD r []).getD d 0

/-- The cell value the encoder builds for character position `c` of a chunk:
`code = 0x2800`, then for each row `r < min 4 (len chunk)` and dot column
`d < 2`, if column `c*2 + d` is inside the row and set, OR in the mapped bit.
Models the body of the `for c in range(char_count)` loop of
`_grid_chunk_to_braille`. -/
def cellCode (chunk : Grid) (c : Nat) : Nat :=
  (List.range (min 4 chunk.length)).foldl
    (fun code r =>
      (List.range 2).foldl
        (fun code d =>
          let row := chunk.getD r []
          let col := c * 2 + d
          if col < row.length ∧ row.getD col false then code ||| dotBit r d else code)
        code)
    0x2800

/-- Models `_grid_chunk_to_braille(chunk, cols)`: one text line of
`ceil(cols / 2)` braille cells. -/
def grid_chunk_to_braille (chunk : Grid) (cols : Nat) : Text :=
  (List.range ((cols + 1) / 2)).map (fun c => cellCode chunk c)

/-- Models `max((len(row) for row in grid), default=0)`. -/
def maxRowLen (g : Grid) : Nat := g.foldl (fun m row => max m row.length) 0

/-- Models `grid_to_braille(grid)`.  The `rows > 4` branch walks
`range(0, rows, 4)` (i.e. `ceil(rows / 4)` starts), slices
`grid[start : start + 4]` and zero-pads a short final chunk. -/
def grid_to_braille (grid : Grid) : Text :=
  if grid.isEmpty then [] else
  let rows := grid.length
  let cols := maxRowLen grid
  if cols = 0 then [] else
  if rows ≤ 4 then grid_chunk_to_braille grid cols
  else
    let chunks := (List.range ((rows + 3) / 4)).map (fun i =>
      let chunk := (grid.drop (4 * i)).take 4
      if chunk.length < 4 then
        chunk ++ List.replicate (4 - chunk.length) (List.replicate cols false)
      else chunk)
    joinNl (chunks.map (fun ch => grid_chunk_to_braille ch cols))

/-- Models `make_grid(rows, cols)` (non-positive dimensions, including the
negative ints the Python version also rejects, give the empty grid). -/
def make_grid (rows cols : Nat) : Grid :=
  if rows = 0 ∨ cols = 0 then [] else List.replicate rows (List.replicate cols false)

/-- Read cell `(r, c)` of a grid; out-of-range cells read `false`. -/
def getCell (g : Grid) (r c : Nat) : Bool := (g.getD r []).getD c false

/-- Set cell `p` of a grid to `True`; out-of-range positions are no-ops
(the modelled loops never go out of range). -/
def setTrue (g : Grid) (p : Nat × Nat) : Grid :=
  g.set p.1 ((g.getD p.1 []).set p.2 true)

/-- Models `_braille_line_to_grid(line)`: a fresh all-false 4 × (2·len) grid,
then for each character index `i`, row `r < 4` and dot `d < 2` whose mapped
bit is set in `ord(ch) - 0x2800`, cell `(r, i*2 + d)` is set to `True`.
The nested loops are modelled as a fold of `setTrue` over the positions they
set, in loop order. -/
def braille_line_to_grid (line : Text) : Grid :=
  let g0 : Grid := List.replicate 4 (List.replicate (line.length * 2) false)
  let ps : List (Nat × Nat) :=
    (List.range line.length).flatMap (fun i =>
      (List.range 4).flatMap (fun r =>
        (List.range 2).filterMap (fun d =>
          if pyLand ((line.getD i 0 : Int) - 0x2800) (dotBit r d) ≠ 0 then
            some (r, i * 2 + d)
          else none)))
  ps.foldl setTrue g0

/-- Models `braille_to_grid(text)`: decode every line to a 4-row band, then
copy every set band cell into a fresh `4·L × maxCols` grid (the copy loops
are modelled as a `setTrue` fold over the positions they set). -/
def braille_to_grid (text : Text) : Grid :=
  if text.isEmpty then [] else
  let lgs := (splitlines text).map braille_line_to_grid
  let maxCols := lgs.foldl (fun m lg => max m (lg.headD []).length) 0
  let g0 : Grid := List.replicate (4 * lgs.length) (List.replicate maxCols false)
  let ps : List (Nat × Nat) :=
    (List.range lgs.length).flatMap (fun li =>
      (List.range 4).flatMap (fun r =>
        (List.range ((lgs.getD li []).getD r []).length).filterMap (fun c =>
          if getCell (lgs.getD li []) r c then some (li * 4 + r, c) else none)))
  ps.foldl setTrue g0

/-- Models the `Spinner` NamedTuple: a plain product of a frame list and a
millisecond interval, with no validation in the constructor. -/
structure Spinner where
  frames : List Text
  interval : Int
deriving DecidableEq

/-- Models the per-frame body of `scale_spinner`: decode the frame, allocate
a `rows*factor × cols*factor` grid, set a `factor × factor` block for every
set source dot (nested loops modelled as a `setTrue` fold over the positions
they set, in loop order), and re-encode. -/
def scaleFrame (frame : Text) (factor : Nat) : Text :=
  let grid := braille_to_grid frame
  let rows := grid.length
  let cols := (grid.headD []).length
  let big0 := make_grid (rows * factor) (cols * factor)
  let ps : List (Nat × Nat) :=
    (List.range rows).flatMap (fun r =>
      (List.range cols).flatMap (fun c =>
        if getCell grid r c then
          (List.range factor).flatMap (fun dr =>
            (List.range factor).map (fun dc => (r * factor + dr, c * factor + dc)))
        else []))
  grid_to_braille (ps.foldl setTrue big0)

/-- Models `scale_spinner(spinner, factor)`. -/
def scale_spinner (s : Spinner) (factor : Nat) : Spinner :=
  if factor ≤ 1 then s
  else { frames := s.frames.map (fun f => scaleFrame f factor), interval := s.interval }

/-- Spec-side definition for the scaling claim, following the claim wording:
the source grid enlarged from `rows × cols` to `rows·f × cols·f`, every set
source dot `(r, c)` becoming a fully set `f × f` block at rows
`r·f .. r·f+f-1`, columns `c·f .. c·f+f-1`, and no other cell set
(destination cell `(R, C)` is set iff source cell `(R/f, C/f)` is). -/
def enlargeSpec (g : Grid) (f : Nat) : Grid :=
  (List.range (g.length * f)).map (fun R =>
    (List.range ((g.headD []).length * f)).map (fun C => getCell g (R / f) (C / f)))

/-- Rectangularity: every row of `g` has length `cols`. -/
def Rect (g : Grid) (cols : Nat) : Prop := ∀ row ∈ g, row.length = cols

/-- The cell value built by OR-ing each mapped bit whose dot is set, in the
encoder loop order (row 0 dots 1 and 4, row 1 dots 2 and 5, row 2 dots 3
and 6, row 3 dots 7 and 8). -/
def cellEnc8 (b1 b4 b2 b5 b3 b6 b7 b8 : Bool) : Nat :=
  let or1 := if b1 then 0x2800 ||| 0x01 else 0x2800
  let or2 := if b4 then or1 ||| 0x08 else or1
  let or3 := if b2 then or2 ||| 0x02 else or2
  let or4 := if b5 then or3 ||| 0x10 else or3
  let or5 := if b3 then or4 ||| 0x04 else or4
  let or6 := if b6 then or5 ||| 0x20 else or5
  let or7 := if b7 then or6 ||| 0x40 else or6
  if b8 then or7 ||| 0x80 else or7

/-- Select the dot boolean at row `r`, dot column `d` out of the eight cell
booleans (same order as `cellEnc8`). -/
def dotSelect (b1 b4 b2 b5 b3 b6 b7 b8 : Bool) (r d : Nat) : Bool :=
  if r = 0 then (if d = 0 then b1 else b4)
  else if r = 1 then (if d = 0 then b2 else b5)
  else if r = 2 then (if d = 0 then b3 else b6)
  else (if d = 0 then b7 else b8)

/-- A Lean string as a list of codepoints (for colour names and ANSI codes). -/
def sToCodes (s : String) : Text := s.data.map Char.toNat

/-- Models the `_COLORS` table of ANSI SGR escape codes. -/
def COLORS : List (Text × Text) :=
  [(sToCodes "red", sToCodes "\x1b[31m"),
   (sToCodes "green", sToCodes "\x1b[32m"),
   (sToCodes "yellow", sToCodes "\x1b[33m"),
   (sToCodes "blue", sToCodes "\x1b[34m"),
   (sToCodes "magenta", sToCodes "\x1b[35m"),
   (sToCodes "cyan", sToCodes "\x1b[36m"),
   (sToCodes "white", sToCodes "\x1b[37m")]

/-- Models `_RESET`. -/
def RESET : Text := sToCodes "\x1b[0m"

/-- Models `_COLORS.get(name, "")`. -/
def colorsGet (name : Text) : Text := (COLORS.lookup name).getD []

/-- Python truthiness of the configured colour (`None` and `""` are falsy). -/
def colorTruthy : Option Text → Bool
  | none => false
  | some c => !c.isEmpty

/-- Models `frame.splitlines() or [""]`. -/
def pyLines (frame : Text) : List Text :=
  match splitlines frame with
  | [] => [[]]
  | ls => ls

/-- The mutable state of a `LiveSpinner` instance, together with the
capability of its output stream (`isatty`).  `threadAlive` models
`_thread is not None and _thread.is_alive()` (the two coincide on every
reachable state, since `stop` both joins and clears the field). -/
structure LiveSpinner where
  spinner : Spinner
  text : Text
  color : Option Text
  isatty : Bool
  threadAlive : Bool
  stopEvent : Bool
  lastRenderedLines : Nat
deriving DecidableEq

/-- Models `LiveSpinner.__init__` (given an already-resolved `Spinner`
value; catalog name lookup is out of scope). -/
def LiveSpinner.make (spinner : Spinner) (text : Text) (color : Option Text)
    (isatty : Bool) (scale : Nat) : LiveSpinner :=
  { spinner := if 1 < scale then scale_spinner spinner scale else spinner
    text := text
    color := color
    isatty := isatty
    threadAlive := false
    stopEvent := false
    lastRenderedLines := 0 }

/-- Models `LiveSpinner._format_frame(frame)`. -/
def format_frame (s : LiveSpinner) (frame : Text) : Text :=
  let lines := pyLines frame
  let lines :=
    if colorTruthy s.color && s.isatty then
      let code := colorsGet (s.color.getD [])
      if code.isEmpty then lines else lines.map (fun l => code ++ l ++ RESET)
    else lines
  let lines :=
    if s.text.isEmpty then lines
    else
      match lines with
      | [] => []
      | l0 :: rest => (if l0.isEmpty then s.text else l0 ++ 32 :: s.text) :: rest
  joinNl lines

/-- The text `LiveSpinner._clear_rendered` writes for `n` previously
rendered lines: per line a carriage return and clear-line, with a cursor-up
between lines (not after the last). -/
def clearSeq (n : Nat) : Text :=
  if n = 0 then [] else
  (List.range n).flatMap (fun i =>
    sToCodes "\r\x1b[2K" ++ (if i < n - 1 then sToCodes "\x1b[1A" else []))

/-- Models `LiveSpinner.start()` as a state transition returning the text
written synchronously by the call.  On a TTY the render loop runs on the
spawned background thread; its asynchronous writes are not part of this
transition. -/
def LiveSpinner.start (s : LiveSpinner) : LiveSpinner × Text :=
  if !s.isatty then
    (s, if s.text.isEmpty then [] else s.text ++ [10])
  else if s.threadAlive then (s, [])
  else ({ s with stopEvent := false, lastRenderedLines := 0, threadAlive := true }, [])

/-- Models `LiveSpinner.stop(symbol)` as a state transition returning the
text the call itself writes (after joining the loop thread): clear the last
rendered lines, optionally a final symbol with the label, and the
show-cursor sequence. -/
def LiveSpinner.stop (s : LiveSpinner) (symbol : Text) : LiveSpinner × Text :=
  if !s.threadAlive then (s, [])
  else
    ({ s with threadAlive := false, stopEvent := true, lastRenderedLines := 0 },
      clearSeq s.lastRenderedLines ++
        (if symbol.isEmpty then []
         else symbol ++ (if s.text.isEmpty then [] else 32 :: s.text) ++ [10]) ++
        sToCodes "\x1b[?25h")

/-- Rendered height of a frame (its line count). -/
def frameHeight (f : Text) : Nat := (splitlines f).length

/-- Rendered width of a frame (its maximum line length). -/
def frameWidth (f : Text) : Nat := (splitlines f).foldl (fun m l => max m l.length) 0

/-- All frames of a list share one rendered width and height. -/
def uniformFrames (fs : List Text) : Prop :=
  ∀ f1 ∈ fs, ∀ f2 ∈ fs, frameWidth f1 = frameWidth f2 ∧ frameHeight f1 = frameHeight f2

/-! ### Generic lemmas about `getCell`, `setTrue` and position-list folds -/

theorem getD_replicate {α : Type} (n i : Nat) (a d : α) :
    (List.replicate n a).getD i d = if i < n then a else d := by
  rcases lt_or_ge i n with h | h
  · rw [if_pos h]
    rw [List.getD_eq_getElem?_getD, List.getElem?_replicate, if_pos h, Option.getD_some]
  · rw [if_neg (by omega)]
    exact List.getD_eq_default _ _ (by simpa using h)

theorem getD_set {α : Type} :
    ∀ (l : List α) (i j : Nat) (a d : α),
      (l.set i a).getD j d = if i = j ∧ i < l.length then a else l.getD j d
  | [], i, j, a, d => by simp
  | x :: xs, 0, 0, a, d => by simp
  | x :: xs, 0, j + 1, a, d => by simp
  | x :: xs, i + 1, 0, a, d => by simp
  | x :: xs, i + 1, j + 1, a, d => by
    simp only [List.set_cons_succ, List.getD_cons_succ, List.length_cons,
      getD_set xs i j a d]
    split_ifs with h1 h2 h2 <;> first | rfl | omega

theorem getCell_replicate (R C r c : Nat) :
    getCell (List.replicate R (List.replicate C false)) r c = false := by
  unfold getCell
  rw [getD_replicate]
  split_ifs with h
  · rw [getD_replicate]; split_ifs <;> rfl
  · simp [List.getD]

theorem setTrue_length (g : Grid) (p : Nat × Nat) : (setTrue g p).length = g.length := by
  simp [setTrue]

theorem setTrue_rowlen (g : Grid) (p : Nat × Nat) (i : Nat) :
    ((setTrue g p).getD i []).length = (g.getD i []).length := by
  unfold setTrue
  rw [getD_set]
  split_ifs with h
  · rw [← h.1, List.length_set]
  · rfl

theorem getCell_setTrue (g : Grid) (p : Nat × Nat) (r c : Nat) :
    (getCell (setTrue g p) r c = true) ↔
      (getCell g r c = true ∨
        (p.1 = r ∧ p.2 = c ∧ p.1 < g.length ∧ p.2 < (g.getD p.1 []).length)) := by
  unfold getCell setTrue
  rw [getD_set]
  split_ifs with h
  · obtain ⟨hp1, hlt⟩ := h
    subst hp1
    rw [getD_set]
    split_ifs with h2
    · obtain ⟨hp2, hlt2⟩ := h2
      constructor
      · exact fun _ => Or.inr ⟨rfl, hp2, hlt, hlt2⟩
      · exact fun _ => rfl
    · constructor
      · exact fun hx => Or.inl hx
      · rintro (hx | ⟨h1, hc2, h3, h4⟩)
        · exact hx
        · exact absurd ⟨hc2, h4⟩ h2
  · constructor
    · exact fun hx => Or.inl hx
    · rintro (hx | ⟨h1, hc2, h3, h4⟩)
      · exact hx
      · exact absurd ⟨h1, h3⟩ h

theorem foldl_setTrue_length (ps : List (Nat × Nat)) (g : Grid) :
    (ps.foldl setTrue g).length = g.length := by
  induction ps generalizing g with
  | nil => rfl
  | cons p ps ih => rw [List.foldl_cons, ih, setTrue_length]

theorem foldl_setTrue_rowlen (ps : List (Nat × Nat)) (g : Grid) (i : Nat) :
    ((ps.foldl setTrue g).getD i []).length = (g.getD i []).length := by
  induction ps generalizing g with
  | nil => rfl
  | cons p ps ih => rw [List.foldl_cons, ih, setTrue_rowlen]

theorem getCell_foldl_setTrue (ps : List (Nat × Nat)) (g : Grid) (r c : Nat) :
    (getCell (ps.foldl setTrue g) r c = true) ↔
      (getCell g r c = true ∨
        ((r, c) ∈ ps ∧ r < g.length ∧ c < (g.getD r []).length)) := by
  induction ps generalizing g with
  | nil => simp
  | cons p ps ih =>
    rw [List.foldl_cons, ih, getCell_setTrue, setTrue_length, setTrue_rowlen]
    constructor
    · rintro ((h | ⟨h1, h2, h3, h4⟩) | ⟨hmem, hr, hc⟩)
      · exact Or.inl h
      · subst h1; subst h2
        exact Or.inr ⟨List.mem_cons_self _ _, h3, h4⟩
      · exact Or.inr ⟨List.mem_cons_of_mem _ hmem, hr, hc⟩
    · rintro (h | ⟨hmem, hr, hc⟩)
      · exact Or.inl (Or.inl h)
      · rcases List.mem_cons.mp hmem with rfl | hmem'
        · exact Or.inl (Or.inr ⟨rfl, rfl, hr, hc⟩)
        · exact Or.inr ⟨hmem', hr, hc⟩

theorem getD_lt {α : Type} (l : List α) (i : Nat) (d : α) (h : i < l.length) :
    l.getD i d = l[i] := by
  rw [List.getD_eq_getElem?_getD, List.getElem?_eq_getElem h, Option.getD_some]

/-- Two grids with the same row count, the same row lengths and the same
cells are equal. -/
theorem grid_eq_of_cells {g1 g2 : Grid} (hlen : g1.length = g2.length)
    (hrow : ∀ i, (g1.getD i []).length = (g2.getD i []).length)
    (hcell : ∀ r c, getCell g1 r c = getCell g2 r c) : g1 = g2 := by
  apply List.ext_getElem hlen
  intro i h1 h2
  apply List.ext_getElem
  · have hr := hrow i
    rwa [getD_lt _ _ _ h1, getD_lt _ _ _ h2] at hr
  · intro c hc1 hc2
    have hx := hcell i c
    unfold getCell at hx
    rwa [getD_lt _ _ _ h1, getD_lt _ _ _ h2, getD_lt _ _ _ hc1, getD_lt _ _ _ hc2] at hx

/-! ### Characterization of `braille_line_to_grid` -/

theorem braille_line_to_grid_length (line : Text) :
    (braille_line_to_grid line).length = 4 := by
  simp only [braille_line_to_grid]
  rw [foldl_setTrue_length, List.length_replicate]

theorem braille_line_to_grid_rowlen (line : Text) (i : Nat) :
    ((braille_line_to_grid line).getD i []).length =
      if i < 4 then line.length * 2 else 0 := by
  simp only [braille_line_to_grid]
  rw [foldl_setTrue_rowlen, getD_replicate]
  split_ifs <;> simp

theorem getCell_braille_line (line : Text) (r c : Nat) :
    (getCell (braille_line_to_grid line) r c = true) ↔
      (r < 4 ∧ c < line.length * 2 ∧
        pyLand ((line.getD (c / 2) 0 : Int) - 0x2800) (dotBit r (c % 2)) ≠ 0) := by
  simp only [braille_line_to_grid]
  rw [getCell_foldl_setTrue]
  constructor
  · rintro (h0 | ⟨hmem, hb1, hb2⟩)
    · rw [getCell_replicate] at h0; cases h0
    · simp only [List.mem_flatMap, List.mem_range, List.mem_filterMap] at hmem
      obtain ⟨i, hi, r', hr', d, hd, hsome⟩ := hmem
      split_ifs at hsome with hbit
      simp only [Option.some.injEq, Prod.mk.injEq] at hsome
      obtain ⟨rfl, rfl⟩ := hsome
      refine ⟨hr', by omega, ?_⟩
      have hdiv : (i * 2 + d) / 2 = i := by omega
      have hmod : (i * 2 + d) % 2 = d := by omega
      rw [hdiv, hmod]
      exact hbit
  · rintro ⟨hr, hc, hbit⟩
    refine Or.inr ⟨?_, ?_, ?_⟩
    · simp only [List.mem_flatMap, List.mem_range, List.mem_filterMap]
      refine ⟨c / 2, ?_, r, hr, c % 2, ?_, ?_⟩
      · clear hbit; omega
      · clear hbit; omega
      · rw [if_pos hbit]
        simp only [Option.some.injEq, Prod.mk.injEq]
        exact ⟨trivial, by clear hbit; omega⟩
    · simpa using hr
    · rw [getD_replicate, if_pos hr]
      simpa using hc

/-! ### `splitlines` and `joinNl` -/

theorem splitlinesGo_no10 :
    ∀ (l acc : Text), (10 : Nat) ∉ l → splitlinesGo l acc = [acc.reverse ++ l]
  | [], acc, _ => by simp [splitlinesGo]
  | c :: rest, acc, h => by
    have hc : ¬ c = 10 := fun hx => h (hx ▸ List.mem_cons_self _ _)
    have hr : (10 : Nat) ∉ rest := fun hx => h (List.mem_cons_of_mem _ hx)
    rw [splitlinesGo, if_neg hc, splitlinesGo_no10 rest (c :: acc) hr]
    simp

theorem splitlinesGo_split :
    ∀ (l acc rest : Text), (10 : Nat) ∉ l → rest ≠ [] →
      splitlinesGo (l ++ 10 :: rest) acc = (acc.reverse ++ l) :: splitlinesGo rest []
  | [], acc, rest, _, hrest => by
    have : rest.isEmpty = false := by cases rest with
      | nil => exact absurd rfl hrest
      | cons x xs => rfl
    rw [List.nil_append, splitlinesGo, if_pos rfl, this]
    simp
  | c :: l, acc, rest, h, hrest => by
    have hc : ¬ c = 10 := fun hx => h (hx ▸ List.mem_cons_self _ _)
    have hl : (10 : Nat) ∉ l := fun hx => h (List.mem_cons_of_mem _ hx)
    rw [List.cons_append, splitlinesGo, if_neg hc,
      splitlinesGo_split l (c :: acc) rest hl hrest]
    simp

theorem splitlinesGo_ne_nil : ∀ (t acc : Text), splitlinesGo t acc ≠ []
  | [], acc => by simp [splitlinesGo]
  | c :: rest, acc => by
    rw [splitlinesGo]
    split_ifs with h h2
    · simp
    · simp
    · exact splitlinesGo_ne_nil rest (c :: acc)

theorem splitlines_ne_nil (t : Text) (h : t ≠ []) : splitlines t ≠ [] := by
  unfold splitlines
  rw [if_neg (by cases t with | nil => exact absurd rfl h | cons x xs => simp)]
  exact splitlinesGo_ne_nil t []

theorem joinNl_ne_nil :
    ∀ (ls : List Text), ls ≠ [] → (∀ l ∈ ls, l ≠ []) → joinNl ls ≠ []
  | [], h, _ => absurd rfl h
  | [l], _, hl => by simpa using hl l (List.mem_cons_self _ _)
  | l :: l2 :: ls, _, _ => by
    have hj : joinNl (l :: l2 :: ls) = l ++ 10 :: joinNl (l2 :: ls) := rfl
    simp [hj]

theorem splitlines_joinNl :
    ∀ (ls : List Text), ls ≠ [] → (∀ l ∈ ls, l ≠ [] ∧ (10 : Nat) ∉ l) →
      splitlines (joinNl ls) = ls
  | [], h, _ => absurd rfl h
  | [l], _, hl => by
    obtain ⟨hne, h10⟩ := hl l (List.mem_cons_self _ _)
    rw [joinNl, splitlines,
      if_neg (by cases l with | nil => exact absurd rfl hne | cons x xs => simp),
      splitlinesGo_no10 l [] h10]
    simp
  | l :: l2 :: ls, _, hl => by
    obtain ⟨hne, h10⟩ := hl l (List.mem_cons_self _ _)
    have hl' : ∀ x ∈ l2 :: ls, x ≠ [] ∧ (10 : Nat) ∉ x :=
      fun x hx => hl x (List.mem_cons_of_mem _ hx)
    have hjoin_ne : joinNl (l2 :: ls) ≠ [] :=
      joinNl_ne_nil _ (by simp) (fun x hx => (hl' x hx).1)
    have hrec := splitlines_joinNl (l2 :: ls) (by simp) hl'
    have hrec2 : splitlinesGo (joinNl (l2 :: ls)) [] = l2 :: ls := by
      rw [splitlines, if_neg (by simpa using hjoin_ne)] at hrec
      exact hrec
    have hj : joinNl (l :: l2 :: ls) = l ++ 10 :: joinNl (l2 :: ls) := rfl
    rw [splitlines, if_neg (by rw [hj]; cases l <;> simp), hj,
      splitlinesGo_split l [] (joinNl (l2 :: ls)) h10 hjoin_ne, hrec2]
    simp

/-! ### Characterization of `braille_to_grid` -/

theorem headD_eq_getD_zero {α : Type} (l : List α) (d : α) : l.headD d = l.getD 0 d := by
  cases l <;> rfl

theorem getCell_true_lt (g : Grid) (r c : Nat) (h : getCell g r c = true) :
    c < (g.getD r []).length := by
  by_contra hc
  unfold getCell at h
  rw [List.getD_eq_default _ _ (by omega)] at h
  cases h

theorem foldl_max_init_le {α : Type} (f : α → Nat) :
    ∀ (l : List α) (a : Nat), a ≤ l.foldl (fun m y => max m (f y)) a
  | [], a => le_refl a
  | x :: l, a =>
    le_trans (Nat.le_max_left a (f x)) (foldl_max_init_le f l (max a (f x)))

theorem le_foldl_max {α : Type} (f : α → Nat) :
    ∀ (l : List α) (a : Nat) (x : α), x ∈ l → f x ≤ l.foldl (fun m y => max m (f y)) a
  | [], _, _, hx => absurd hx (List.not_mem_nil _)
  | y :: l, a, x, hx => by
    rcases List.mem_cons.mp hx with rfl | hx'
    · exact le_trans (Nat.le_max_right a (f x)) (foldl_max_init_le f l (max a (f x)))
    · exact le_foldl_max f l (max a (f y)) x hx'

/-- The maximum line length of a list of lines, as the decoder folds it. -/
theorem decode_maxCols_eq :
    ∀ (ls : List Text) (a : Nat),
      (ls.map braille_line_to_grid).foldl (fun m lg => max m (lg.headD []).length) (2 * a) =
        2 * ls.foldl (fun m l => max m l.length) a
  | [], a => rfl
  | l :: ls, a => by
    rw [List.map_cons, List.foldl_cons, List.foldl_cons]
    have hrow : ((braille_line_to_grid l).headD []).length = 2 * l.length := by
      rw [headD_eq_getD_zero, braille_line_to_grid_rowlen, if_pos (by omega)]
      omega
    rw [hrow, (by omega : max (2 * a) (2 * l.length) = 2 * max a l.length),
      decode_maxCols_eq ls (max a l.length)]

theorem getD_map_braille (ls : List Text) (i : Nat) (hi : i < ls.length) :
    (ls.map braille_line_to_grid).getD i [] = braille_line_to_grid (ls.getD i []) := by
  rw [getD_lt _ _ _ (by simpa using hi), getD_lt _ _ _ hi, List.getElem_map]

theorem isEmpty_false_of_ne_nil {α : Type} (l : List α) (h : l ≠ []) :
    l.isEmpty = false := by
  cases l with
  | nil => exact absurd rfl h
  | cons x xs => rfl

theorem braille_to_grid_length (t : Text) (h : t ≠ []) :
    (braille_to_grid t).length = 4 * (splitlines t).length := by
  simp only [braille_to_grid]
  rw [if_neg (by simp [isEmpty_false_of_ne_nil t h])]
  rw [foldl_setTrue_length, List.length_replicate, List.length_map]

theorem braille_to_grid_rowlen (t : Text) (h : t ≠ []) (i : Nat) :
    ((braille_to_grid t).getD i []).length =
      if i < 4 * (splitlines t).length then
        2 * (splitlines t).foldl (fun m l => max m l.length) 0
      else 0 := by
  simp only [braille_to_grid]
  rw [if_neg (by simp [isEmpty_false_of_ne_nil t h])]
  rw [foldl_setTrue_rowlen, getD_replicate,
    (by rfl : (0 : Nat) = 2 * 0), decode_maxCols_eq, List.length_map]
  split_ifs <;> simp

theorem getCell_braille_to_grid (t : Text) (ht : t ≠ []) (R C : Nat) :
    (getCell (braille_to_grid t) R C = true) ↔
      (R < 4 * (splitlines t).length ∧
        getCell (braille_line_to_grid ((splitlines t).getD (R / 4) [])) (R % 4) C = true) := by
  simp only [braille_to_grid]
  rw [if_neg (by simp [isEmpty_false_of_ne_nil t ht])]
  rw [getCell_foldl_setTrue]
  constructor
  · rintro (h0 | ⟨hmem, hb1, hb2⟩)
    · rw [getCell_replicate] at h0; cases h0
    · simp only [List.mem_flatMap, List.mem_range, List.mem_filterMap] at hmem
      obtain ⟨li, hli, r, hr4, c, hcrange, hsome⟩ := hmem
      rw [List.length_map] at hli
      split_ifs at hsome with hcell
      simp only [Option.some.injEq, Prod.mk.injEq] at hsome
      obtain ⟨hRC, rfl⟩ := hsome
      have hdiv : R / 4 = li := by omega
      have hmod : R % 4 = r := by omega
      refine ⟨by omega, ?_⟩
      rw [hdiv, hmod]
      rw [getD_map_braille _ _ hli] at hcell
      exact hcell
  · rintro ⟨hR, hcell⟩
    have hli : R / 4 < (splitlines t).length := by omega
    have hlen : C < ((braille_line_to_grid ((splitlines t).getD (R / 4) [])).getD (R % 4) []).length :=
      getCell_true_lt _ _ _ hcell
    have hmc : C < 2 * (splitlines t).foldl (fun m l => max m l.length) 0 := by
      rw [braille_line_to_grid_rowlen, if_pos (by omega)] at hlen
      have hmem : (splitlines t).getD (R / 4) [] ∈ splitlines t := by
        rw [getD_lt _ _ _ hli]
        exact List.getElem_mem _
      have h2 : ((splitlines t).getD (R / 4) []).length ≤
          (splitlines t).foldl (fun m l => max m l.length) 0 :=
        le_foldl_max (fun l => l.length) (splitlines t) 0 _ hmem
      omega
    refine Or.inr ⟨?_, ?_, ?_⟩
    · simp only [List.mem_flatMap, List.mem_range, List.mem_filterMap]
      refine ⟨R / 4, by simpa using hli, R % 4, by omega, C, ?_, ?_⟩
      · rw [getD_map_braille _ _ hli]
        exact hlen
      · rw [if_pos (by rw [getD_map_braille _ _ hli]; exact hcell)]
        simp only [Option.some.injEq, Prod.mk.injEq]
        exact ⟨by omega, trivial⟩
    · simpa using hR
    · rw [getD_replicate, if_pos (by simpa using hR),
        (by rfl : (0 : Nat) = 2 * 0), decode_maxCols_eq]
      simpa using hmc

/-! ### Encoder cell values -/

theorem bool_eq_decide {b : Bool} {p : Prop} [Decidable p] (h : b = true ↔ p) :
    b = decide p := by
  cases hb : b
  · rw [hb] at h
    simp only [Bool.false_eq_true, false_iff] at h
    simp [h]
  · rw [hb] at h
    simp only [true_iff] at h
    simp [h]

theorem cell_cond_iff (row : List Bool) (col : Nat) :
    (col < row.length ∧ row.getD col false = true) ↔ row.getD col false = true := by
  constructor
  · exact fun h => h.2
  · intro h
    refine ⟨?_, h⟩
    by_contra hc
    rw [List.getD_eq_default _ _ (by omega)] at h
    cases h

theorem cellCode_eq_cellEnc8 (chunk : Grid) (c : Nat) (h4 : chunk.length = 4) :
    cellCode chunk c =
      cellEnc8 (getCell chunk 0 (c * 2)) (getCell chunk 0 (c * 2 + 1))
        (getCell chunk 1 (c * 2)) (getCell chunk 1 (c * 2 + 1))
        (getCell chunk 2 (c * 2)) (getCell chunk 2 (c * 2 + 1))
        (getCell chunk 3 (c * 2)) (getCell chunk 3 (c * 2 + 1)) := by
  have hr4 : List.range (min 4 chunk.length) = [0, 1, 2, 3] := by rw [h4]; rfl
  have hr2 : List.range 2 = [0, 1] := rfl
  unfold cellCode
  rw [hr4, hr2]
  simp only [List.foldl_cons, List.foldl_nil, Nat.add_zero]
  simp only [cell_cond_iff, cellEnc8, getCell]
  simp [dotBit, BRAILLE_DOT_MAP]

theorem exists_lor_foldl {α : Type} (f : Nat → α → Nat)
    (h : ∀ code a, ∃ m, f code a = code ||| m) :
    ∀ (l : List α) (code : Nat), ∃ m, l.foldl f code = code ||| m
  | [], code => ⟨0, by simp⟩
  | a :: l, code => by
    obtain ⟨m1, hm1⟩ := h code a
    obtain ⟨m2, hm2⟩ := exists_lor_foldl f h l (f code a)
    exact ⟨m1 ||| m2, by rw [List.foldl_cons, hm2, hm1, Nat.lor_assoc]⟩

theorem cellCode_lor (chunk : Grid) (c : Nat) :
    ∃ m, cellCode chunk c = 0x2800 ||| m := by
  unfold cellCode
  apply exists_lor_foldl
  intro code r
  apply exists_lor_foldl
  intro code' d
  simp only []
  split_ifs with h
  · exact ⟨dotBit r d, rfl⟩
  · exact ⟨0, by simp⟩

theorem cellCode_ne_10 (chunk : Grid) (c : Nat) : cellCode chunk c ≠ 10 := by
  obtain ⟨m, hm⟩ := cellCode_lor chunk c
  intro h
  rw [hm] at h
  have h3 := congrArg (fun n => Nat.testBit n 11) h
  simp only [Nat.testBit_lor] at h3
  rw [(by decide : Nat.testBit 0x2800 11 = true),
    (by decide : Nat.testBit 10 11 = false)] at h3
  simp at h3

/-- Char-level inverse, decode-then-encode direction: re-encoding the eight
bit tests of a braille codepoint `0x2800 + k` rebuilds exactly that
codepoint. -/
theorem char_enc_of_dec : ∀ k < 256,
    cellEnc8 (decide (pyLand (((0x2800 + k : Nat) : Int) - 0x2800) (dotBit 0 0) ≠ 0))
      (decide (pyLand (((0x2800 + k : Nat) : Int) - 0x2800) (dotBit 0 1) ≠ 0))
      (decide (pyLand (((0x2800 + k : Nat) : Int) - 0x2800) (dotBit 1 0) ≠ 0))
      (decide (pyLand (((0x2800 + k : Nat) : Int) - 0x2800) (dotBit 1 1) ≠ 0))
      (decide (pyLand (((0x2800 + k : Nat) : Int) - 0x2800) (dotBit 2 0) ≠ 0))
      (decide (pyLand (((0x2800 + k : Nat) : Int) - 0x2800) (dotBit 2 1) ≠ 0))
      (decide (pyLand (((0x2800 + k : Nat) : Int) - 0x2800) (dotBit 3 0) ≠ 0))
      (decide (pyLand (((0x2800 + k : Nat) : Int) - 0x2800) (dotBit 3 1) ≠ 0)) =
      0x2800 + k := by decide

/-- Char-level inverse, encode-then-decode direction: testing bit `(r, d)` of
an encoded cell value recovers the dot boolean that produced it. -/
theorem char_dec_of_enc : ∀ (b1 b4 b2 b5 b3 b6 b7 b8 : Bool), ∀ r < 4, ∀ d < 2,
    (pyLand ((cellEnc8 b1 b4 b2 b5 b3 b6 b7 b8 : Nat) - 0x2800 : Int) (dotBit r d) ≠ 0) ↔
      dotSelect b1 b4 b2 b5 b3 b6 b7 b8 r d = true := by decide

theorem dotSelect_getCell (chunk : Grid) (e r d : Nat) (hr : r < 4) (hd : d < 2) :
    dotSelect (getCell chunk 0 e) (getCell chunk 0 (e + 1)) (getCell chunk 1 e)
      (getCell chunk 1 (e + 1)) (getCell chunk 2 e) (getCell chunk 2 (e + 1))
      (getCell chunk 3 e) (getCell chunk 3 (e + 1)) r d = getCell chunk r (e + d) := by
  unfold dotSelect
  have h4 : r = 0 ∨ r = 1 ∨ r = 2 ∨ r = 3 := by omega
  have h2 : d = 0 ∨ d = 1 := by omega
  rcases h4 with rfl | rfl | rfl | rfl <;> rcases h2 with rfl | rfl <;> simp

/-! ### Line-level inverses -/

theorem bool_eq_of_iff {a b : Bool} (h : a = true ↔ b = true) : a = b := by
  cases ha : a <;> cases hb : b <;> simp_all

theorem getCell_true_row_lt (g : Grid) (r c : Nat) (h : getCell g r c = true) :
    r < g.length := by
  by_contra hc
  unfold getCell at h
  have h2 : g.getD r [] = ([] : List Bool) := List.getD_eq_default _ _ (by omega)
  rw [h2] at h
  simp [List.getD] at h

theorem chunkEnc_length (chunk : Grid) (cols : Nat) :
    (grid_chunk_to_braille chunk cols).length = (cols + 1) / 2 := by
  simp [grid_chunk_to_braille]

theorem chunkEnc_getD (chunk : Grid) (cols c : Nat) (hc : c < (cols + 1) / 2) :
    (grid_chunk_to_braille chunk cols).getD c 0 = cellCode chunk c := by
  unfold grid_chunk_to_braille
  rw [getD_lt _ _ _ (by simpa using hc), List.getElem_map, List.getElem_range]

theorem chunkEnc_no10 (chunk : Grid) (cols : Nat) :
    (10 : Nat) ∉ grid_chunk_to_braille chunk cols := by
  unfold grid_chunk_to_braille
  intro h
  rw [List.mem_map] at h
  obtain ⟨c, _, hc⟩ := h
  exact cellCode_ne_10 chunk c hc

theorem chunkEnc_ne_nil (chunk : Grid) (cols : Nat) (hcols : 1 ≤ cols) :
    grid_chunk_to_braille chunk cols ≠ [] := by
  intro h
  have := chunkEnc_length chunk cols
  rw [h] at this
  simp at this
  omega

/-- Decode-then-encode inverse at line level: re-encoding the 4-row band a
braille line decodes to reproduces the line, provided every character lies
in the braille block. -/
theorem chunkEnc_of_line (line : Text)
    (hch : ∀ ch ∈ line, 0x2800 ≤ ch ∧ ch ≤ 0x28FF) :
    grid_chunk_to_braille (braille_line_to_grid line) (2 * line.length) = line := by
  unfold grid_chunk_to_braille
  rw [(by omega : (2 * line.length + 1) / 2 = line.length)]
  apply List.ext_getElem
  · simp
  intro i h1 h2
  rw [List.getElem_map, List.getElem_range]
  have hi : i < line.length := h2
  have hblg4 : (braille_line_to_grid line).length = 4 := braille_line_to_grid_length line
  rw [cellCode_eq_cellEnc8 _ _ hblg4]
  have hcell : ∀ r d, r < 4 → d < 2 →
      getCell (braille_line_to_grid line) r (i * 2 + d) =
        decide (pyLand ((line.getD i 0 : Int) - 0x2800) (dotBit r d) ≠ 0) := by
    intro r d hr hd
    apply bool_eq_decide
    rw [getCell_braille_line]
    constructor
    · rintro ⟨_, _, hbit⟩
      rwa [(by omega : (i * 2 + d) / 2 = i), (by omega : (i * 2 + d) % 2 = d)] at hbit
    · intro hbit
      exact ⟨hr, by omega,
        by rwa [(by omega : (i * 2 + d) / 2 = i), (by omega : (i * 2 + d) % 2 = d)]⟩
  have h00 := hcell 0 0 (by omega) (by omega)
  have h01 := hcell 0 1 (by omega) (by omega)
  have h10 := hcell 1 0 (by omega) (by omega)
  have h11 := hcell 1 1 (by omega) (by omega)
  have h20 := hcell 2 0 (by omega) (by omega)
  have h21 := hcell 2 1 (by omega) (by omega)
  have h30 := hcell 3 0 (by omega) (by omega)
  have h31 := hcell 3 1 (by omega) (by omega)
  rw [Nat.add_zero] at h00 h10 h20 h30
  rw [h00, h01, h10, h11, h20, h21, h30, h31]
  obtain ⟨hlo, hhi⟩ := hch (line.getD i 0)
    (by rw [getD_lt _ _ _ hi]; exact List.getElem_mem _)
  rw [← getD_lt _ _ 0 hi]
  rw [(by omega : line.getD i 0 = 0x2800 + (line.getD i 0 - 0x2800))]
  exact char_enc_of_dec (line.getD i 0 - 0x2800) (by omega)

/-- Encode-then-decode inverse at line level: decoding the encoding of a
rectangular 4-row band with an even column count reproduces the band. -/
theorem line_of_chunkEnc (band : Grid) (cols : Nat) (hrect : Rect band cols)
    (h4 : band.length = 4) (heven : cols % 2 = 0) :
    braille_line_to_grid (grid_chunk_to_braille band cols) = band := by
  have hlen : (grid_chunk_to_braille band cols).length = (cols + 1) / 2 :=
    chunkEnc_length band cols
  apply grid_eq_of_cells
  · rw [braille_line_to_grid_length, h4]
  · intro i
    rw [braille_line_to_grid_rowlen, hlen]
    rcases lt_or_ge i 4 with h | h
    · rw [if_pos h, getD_lt _ _ _ (by omega : i < band.length),
        hrect _ (List.getElem_mem _)]
      omega
    · rw [if_neg (by omega), List.getD_eq_default _ _ (by omega)]
      rfl
  · intro r c
    apply bool_eq_of_iff
    rw [getCell_braille_line]
    constructor
    · rintro ⟨hr, hc, hbit⟩
      rw [hlen] at hc
      rw [chunkEnc_getD band cols (c / 2) (by omega)] at hbit
      rw [cellCode_eq_cellEnc8 band (c / 2) h4] at hbit
      have hsel := (char_dec_of_enc _ _ _ _ _ _ _ _ r hr (c % 2) (by omega)).mp hbit
      rw [dotSelect_getCell band (c / 2 * 2) r (c % 2) hr (by omega)] at hsel
      rwa [(by omega : c / 2 * 2 + c % 2 = c)] at hsel
    · intro hcell
      have hr : r < 4 := by
        have := getCell_true_row_lt band r c hcell
        omega
      have hcb : c < cols := by
        have hx := getCell_true_lt band r c hcell
        rw [getD_lt _ _ _ (by omega : r < band.length),
          hrect _ (List.getElem_mem _)] at hx
        exact hx
      refine ⟨hr, by rw [hlen]; omega, ?_⟩
      rw [chunkEnc_getD band cols (c / 2) (by omega),
        cellCode_eq_cellEnc8 band (c / 2) h4]
      apply (char_dec_of_enc _ _ _ _ _ _ _ _ r hr (c % 2) (by omega)).mpr
      rw [dotSelect_getCell band (c / 2 * 2) r (c % 2) hr (by omega),
        (by omega : c / 2 * 2 + c % 2 = c)]
      exact hcell

/-! ### The grid-level round trip -/

theorem foldl_max_const {α : Type} (f : α → Nat) (cols : Nat) :
    ∀ (l : List α) (a : Nat), (∀ x ∈ l, f x = cols) → l ≠ [] →
      l.foldl (fun m y => max m (f y)) a = max a cols
  | [], _, _, h => absurd rfl h
  | [x], a, hc, _ => by
    rw [List.foldl_cons, List.foldl_nil, hc x (List.mem_cons_self _ _)]
  | x :: y :: l, a, hc, _ => by
    rw [List.foldl_cons,
      foldl_max_const f cols (y :: l) _ (fun z hz => hc z (List.mem_cons_of_mem _ hz))
        (by simp),
      hc x (List.mem_cons_self _ _)]
    omega

theorem maxRowLen_rect (g : Grid) (cols : Nat) (hrect : Rect g cols) (hne : g ≠ []) :
    maxRowLen g = cols := by
  unfold maxRowLen
  rw [foldl_max_const (fun row => row.length) cols g 0 (fun x hx => hrect x hx) hne]
  omega

theorem getCell_band (g : Grid) (a r c : Nat) (hr : r < 4) (hin : a + r < g.length) :
    getCell ((g.drop a).take 4) r c = getCell g (a + r) c := by
  unfold getCell
  have hb : r < ((g.drop a).take 4).length := by
    rw [List.length_take, List.length_drop]
    omega
  rw [getD_lt _ _ _ hb, getD_lt _ _ _ hin]
  congr 1
  rw [List.getElem_take, List.getElem_drop]

/-- Encode normal form: for a non-empty rectangular grid whose row count is
a multiple of 4, the encoder emits exactly one line per 4-row band, each
band encoded by `_grid_chunk_to_braille`, joined by newlines (no padding is
needed). -/
theorem encode_normal_form (g : Grid) (cols : Nat) (hrect : Rect g cols) (hne : g ≠ [])
    (hrows4 : g.length % 4 = 0) (hcols1 : 1 ≤ cols) :
    grid_to_braille g =
      joinNl ((List.range (g.length / 4)).map
        (fun i => grid_chunk_to_braille ((g.drop (4 * i)).take 4) cols)) := by
  have hrows1 : 1 ≤ g.length := List.length_pos.mpr hne
  have hmax : maxRowLen g = cols := maxRowLen_rect g cols hrect hne
  set K := g.length / 4 with hKdef
  have hlen4 : g.length = 4 * K := by omega
  have hbandlen : ∀ i, i < K → ((g.drop (4 * i)).take 4).length = 4 := by
    intro i hi
    rw [List.length_take, List.length_drop]
    omega
  simp only [grid_to_braille]
  rw [if_neg (by simp [isEmpty_false_of_ne_nil g hne])]
  rw [hmax, if_neg (by omega)]
  rcases le_or_lt g.length 4 with hle | hgt
  · rw [if_pos hle]
    have hKeq : K = 1 := by omega
    rw [hKeq]
    have hmap : (List.range 1).map
        (fun i => grid_chunk_to_braille ((g.drop (4 * i)).take 4) cols) =
        [grid_chunk_to_braille ((g.drop (4 * 0)).take 4) cols] := rfl
    rw [hmap, (by omega : 4 * 0 = 0), List.drop_zero,
      List.take_of_length_le (by omega)]
    rfl
  · rw [if_neg (by omega)]
    have hKc : (g.length + 3) / 4 = K := by omega
    rw [hKc, List.map_map]
    apply congrArg joinNl
    apply List.map_congr_left
    intro i hi
    rw [List.mem_range] at hi
    have h4 := hbandlen i hi
    simp only [Function.comp_apply]
    rw [if_neg (by omega)]

/-- The core round-trip theorem: decoding the encoding of a non-empty
rectangular grid whose row count is a multiple of 4 and whose column count
is even and at least 2 reproduces the grid. -/
theorem roundtrip_core (g : Grid) (cols : Nat) (hrect : Rect g cols) (hne : g ≠ [])
    (hrows4 : g.length % 4 = 0) (heven : cols % 2 = 0) (hcols2 : 2 ≤ cols) :
    braille_to_grid (grid_to_braille g) = g := by
  have hrows1 : 1 ≤ g.length := List.length_pos.mpr hne
  set K := g.length / 4 with hKdef
  have hlen4 : g.length = 4 * K := by omega
  have hK1 : 1 ≤ K := by omega
  have hbandlen : ∀ i, i < K → ((g.drop (4 * i)).take 4).length = 4 := by
    intro i hi
    rw [List.length_take, List.length_drop]
    omega
  have hbandrect : ∀ i, i < K → Rect ((g.drop (4 * i)).take 4) cols := by
    intro i _ row hrow
    exact hrect row (List.mem_of_mem_drop (List.mem_of_mem_take hrow))
  have hA : grid_to_braille g =
      joinNl ((List.range K).map
        (fun i => grid_chunk_to_braille ((g.drop (4 * i)).take 4) cols)) :=
    encode_normal_form g cols hrect hne hrows4 (by omega)
  set lines := (List.range K).map
    (fun i => grid_chunk_to_braille ((g.drop (4 * i)).take 4) cols) with hlines
  have hlineslen : lines.length = K := by rw [hlines]; simp
  have hlines_ne : lines ≠ [] := by
    intro hx
    rw [hx] at hlineslen
    simp at hlineslen
    omega
  have hlines_prop : ∀ l ∈ lines, l ≠ [] ∧ (10 : Nat) ∉ l := by
    rw [hlines]
    intro l hl
    rw [List.mem_map] at hl
    obtain ⟨i, _, rfl⟩ := hl
    exact ⟨chunkEnc_ne_nil _ _ (by omega), chunkEnc_no10 _ _⟩
  have hsplit : splitlines (grid_to_braille g) = lines := by
    rw [hA]
    exact splitlines_joinNl lines hlines_ne hlines_prop
  have henc_ne : grid_to_braille g ≠ [] := by
    rw [hA]
    exact joinNl_ne_nil lines hlines_ne (fun l hl => (hlines_prop l hl).1)
  have hlinelen : ∀ l ∈ lines, l.length = (cols + 1) / 2 := by
    rw [hlines]
    intro l hl
    rw [List.mem_map] at hl
    obtain ⟨i, _, rfl⟩ := hl
    exact chunkEnc_length _ _
  have hfold2 : 2 * (lines.foldl (fun m l => max m l.length) 0) = cols := by
    rw [foldl_max_const (fun l => l.length) ((cols + 1) / 2) lines 0 hlinelen hlines_ne]
    omega
  have hband : ∀ i, i < K → lines.getD i [] =
      grid_chunk_to_braille ((g.drop (4 * i)).take 4) cols := by
    intro i hi
    rw [hlines, getD_lt _ _ _ (by simpa using hi), List.getElem_map, List.getElem_range]
  apply grid_eq_of_cells
  · rw [braille_to_grid_length _ henc_ne, hsplit, hlineslen]
    omega
  · intro i
    rw [braille_to_grid_rowlen _ henc_ne i, hsplit, hlineslen]
    rcases lt_or_ge i g.length with h | h
    · rw [if_pos (by omega), hfold2, getD_lt _ _ _ h, hrect _ (List.getElem_mem _)]
    · rw [if_neg (by omega)]
      have h0 : g.getD i [] = ([] : List Bool) := List.getD_eq_default _ _ (by omega)
      rw [h0]
      rfl
  · intro R C
    apply bool_eq_of_iff
    rw [getCell_braille_to_grid _ henc_ne, hsplit, hlineslen]
    constructor
    · rintro ⟨hR, hcell⟩
      have hR4 : R / 4 < K := by omega
      rw [hband _ hR4,
        line_of_chunkEnc _ cols (hbandrect _ hR4) (hbandlen _ hR4) heven,
        getCell_band g (4 * (R / 4)) (R % 4) C (by omega) (by omega),
        (by omega : 4 * (R / 4) + R % 4 = R)] at hcell
      exact hcell
    · intro hcell
      have hRlen : R < g.length := getCell_true_row_lt g R C hcell
      have hR4 : R / 4 < K := by omega
      refine ⟨by omega, ?_⟩
      rw [hband _ hR4,
        line_of_chunkEnc _ cols (hbandrect _ hR4) (hbandlen _ hR4) heven,
        getCell_band g (4 * (R / 4)) (R % 4) C (by omega) (by omega),
        (by omega : 4 * (R / 4) + R % 4 = R)]
      exact hcell

/-! ### The text-level round trip -/

theorem map_range_getD {α : Type} (l : List α) (d : α) :
    (List.range l.length).map (fun i => l.getD i d) = l := by
  apply List.ext_getElem
  · simp
  · intro i h1 h2
    rw [List.getElem_map, List.getElem_range, getD_lt _ _ _ h2]

/-- Re-encoding the decoding of a newline-joined list of equal-length
non-empty braille-block lines reproduces the joined text exactly. -/
theorem text_roundtrip_core (ls : List Text) (n : Nat) (hne : ls ≠ []) (hn : 1 ≤ n)
    (hlen : ∀ l ∈ ls, l.length = n)
    (hch : ∀ l ∈ ls, ∀ ch ∈ l, 0x2800 ≤ ch ∧ ch ≤ 0x28FF) :
    grid_to_braille (braille_to_grid (joinNl ls)) = joinNl ls := by
  have hprop : ∀ l ∈ ls, l ≠ [] ∧ (10 : Nat) ∉ l := by
    intro l hl
    constructor
    · intro hx
      have := hlen l hl
      rw [hx] at this
      simp at this
      omega
    · intro h10
      have := hch l hl 10 h10
      omega
  have ht_ne : joinNl ls ≠ [] := joinNl_ne_nil ls hne (fun l hl => (hprop l hl).1)
  have hsplit : splitlines (joinNl ls) = ls := splitlines_joinNl ls hne hprop
  have hL1 : 1 ≤ ls.length := List.length_pos.mpr hne
  have hDlen : (braille_to_grid (joinNl ls)).length = 4 * ls.length := by
    rw [braille_to_grid_length _ ht_ne, hsplit]
  have hfold : (splitlines (joinNl ls)).foldl (fun m l => max m l.length) 0 = n := by
    rw [hsplit, foldl_max_const (fun l => l.length) n ls 0 hlen hne]
    omega
  have hDrow : ∀ i, i < (braille_to_grid (joinNl ls)).length →
      ((braille_to_grid (joinNl ls)).getD i []).length = 2 * n := by
    intro i hi
    rw [braille_to_grid_rowlen _ ht_ne i, hfold, hsplit, if_pos (by omega)]
  have hDrect : Rect (braille_to_grid (joinNl ls)) (2 * n) := by
    intro row hrow
    rw [List.mem_iff_getElem] at hrow
    obtain ⟨i, hi, rfl⟩ := hrow
    have := hDrow i hi
    rwa [getD_lt _ _ _ hi] at this
  have hD_ne : braille_to_grid (joinNl ls) ≠ [] := by
    intro hx
    rw [hx] at hDlen
    simp only [List.length_nil] at hDlen
    omega
  have hEnc := encode_normal_form (braille_to_grid (joinNl ls)) (2 * n) hDrect hD_ne
    (by omega) (by omega)
  rw [(by omega : (braille_to_grid (joinNl ls)).length / 4 = ls.length)] at hEnc
  have hDband : ∀ i, i < ls.length →
      (((braille_to_grid (joinNl ls)).drop (4 * i)).take 4) =
        braille_line_to_grid (ls.getD i []) := by
    intro i hi
    have hblg4 := braille_line_to_grid_length (ls.getD i [])
    have hmem : ls.getD i [] ∈ ls := by
      rw [getD_lt _ _ _ hi]
      exact List.getElem_mem _
    have hlinei : (ls.getD i []).length = n := hlen _ hmem
    apply grid_eq_of_cells
    · rw [List.length_take, List.length_drop, hblg4]
      omega
    · intro r
      rcases lt_or_ge r 4 with hr | hr
      · have hb : r < (((braille_to_grid (joinNl ls)).drop (4 * i)).take 4).length := by
          rw [List.length_take, List.length_drop]
          omega
        rw [getD_lt _ _ _ hb, List.getElem_take, List.getElem_drop,
          braille_line_to_grid_rowlen, if_pos hr]
        have hx := hDrow (4 * i + r) (by omega)
        rw [getD_lt _ _ _ (by omega)] at hx
        rw [hx, hlinei]
        omega
      · have hdef : (((braille_to_grid (joinNl ls)).drop (4 * i)).take 4).getD r [] =
            ([] : List Bool) :=
          List.getD_eq_default _ _ (by rw [List.length_take, List.length_drop]; omega)
        rw [hdef, braille_line_to_grid_rowlen, if_neg (by omega)]
        rfl
    · intro r c
      apply bool_eq_of_iff
      rcases lt_or_ge r 4 with hr | hr
      · rw [getCell_band (braille_to_grid (joinNl ls)) (4 * i) r c hr (by omega)]
        rw [getCell_braille_to_grid _ ht_ne, hsplit,
          (by omega : (4 * i + r) / 4 = i), (by omega : (4 * i + r) % 4 = r)]
        constructor
        · exact fun h => h.2
        · exact fun h => ⟨by omega, h⟩
      · constructor
        · intro h
          exfalso
          have := getCell_true_row_lt _ _ _ h
          rw [List.length_take, List.length_drop] at this
          omega
        · intro h
          exfalso
          have := getCell_true_row_lt _ _ _ h
          rw [hblg4] at this
          omega
  rw [hEnc]
  apply congrArg joinNl
  have hcong : ∀ i ∈ List.range ls.length,
      grid_chunk_to_braille (((braille_to_grid (joinNl ls)).drop (4 * i)).take 4) (2 * n) =
        ls.getD i [] := by
    intro i hi
    rw [List.mem_range] at hi
    rw [hDband i hi]
    have hmem : ls.getD i [] ∈ ls := by
      rw [getD_lt _ _ _ hi]
      exact List.getElem_mem _
    rw [(by rw [hlen _ hmem] : 2 * n = 2 * (ls.getD i []).length)]
    exact chunkEnc_of_line _ (hch _ hmem)
  rw [List.map_congr_left hcong, map_range_getD]

/-! ### Scaling -/

theorem enlargeSpec_length (g : Grid) (f : Nat) :
    (enlargeSpec g f).length = g.length * f := by
  simp [enlargeSpec]

theorem enlargeSpec_rowlen (g : Grid) (f : Nat) (i : Nat) :
    ((enlargeSpec g f).getD i []).length =
      if i < g.length * f then (g.headD []).length * f else 0 := by
  rcases lt_or_ge i (g.length * f) with h | h
  · rw [if_pos h]
    unfold enlargeSpec
    rw [getD_lt _ _ _ (by simpa using h), List.getElem_map]
    simp
  · rw [if_neg (by omega)]
    have hd : (enlargeSpec g f).getD i [] = ([] : List Bool) :=
      List.getD_eq_default _ _ (by rw [enlargeSpec_length]; omega)
    rw [hd]
    rfl

theorem getCell_enlargeSpec (g : Grid) (f : Nat) (R C : Nat) :
    (getCell (enlargeSpec g f) R C = true) ↔
      (R < g.length * f ∧ C < (g.headD []).length * f ∧
        getCell g (R / f) (C / f) = true) := by
  unfold getCell
  rcases lt_or_ge R (g.length * f) with hR | hR
  · have hRlen : R < (enlargeSpec g f).length := by rw [enlargeSpec_length]; omega
    conv_lhs => rw [getD_lt _ _ _ hRlen]
    unfold enlargeSpec
    rw [List.getElem_map, List.getElem_range]
    rcases lt_or_ge C ((g.headD []).length * f) with hC | hC
    · rw [getD_lt _ _ _ (by simpa using hC), List.getElem_map, List.getElem_range]
      unfold getCell
      constructor
      · exact fun h => ⟨hR, hC, h⟩
      · exact fun h => h.2.2
    · rw [List.getD_eq_default _ _ (by simpa using hC)]
      constructor
      · intro h; cases h
      · intro h; omega
  · have hd : (enlargeSpec g f).getD R [] = ([] : List Bool) :=
      List.getD_eq_default _ _ (by rw [enlargeSpec_length]; omega)
    rw [hd]
    constructor
    · intro h; simp [List.getD] at h
    · intro h; omega

/-- The nested block-filling loops of `scale_spinner` build exactly the
nearest-neighbour enlargement described by the spec. -/
theorem scale_fold_eq (G : Grid) (f : Nat) (hf : 1 ≤ f) (hne : G ≠ [])
    (hw1 : 1 ≤ (G.headD []).length) :
    (((List.range G.length).flatMap (fun r =>
      (List.range (G.headD []).length).flatMap (fun c =>
        if getCell G r c then
          (List.range f).flatMap (fun dr =>
            (List.range f).map (fun dc => (r * f + dr, c * f + dc)))
        else []))).foldl setTrue
      (make_grid (G.length * f) ((G.headD []).length * f))) = enlargeSpec G f := by
  have hrows1 : 1 ≤ G.length := List.length_pos.mpr hne
  have hbig : make_grid (G.length * f) ((G.headD []).length * f) =
      List.replicate (G.length * f) (List.replicate ((G.headD []).length * f) false) := by
    unfold make_grid
    rw [if_neg]
    push_neg
    constructor <;> positivity
  rw [hbig]
  apply grid_eq_of_cells
  · rw [foldl_setTrue_length, List.length_replicate, enlargeSpec_length]
  · intro i
    rw [foldl_setTrue_rowlen, getD_replicate, enlargeSpec_rowlen]
    split_ifs with h
    · simp
    · rfl
  · intro R C
    apply bool_eq_of_iff
    rw [getCell_foldl_setTrue, getCell_enlargeSpec]
    have hrepl : ∀ X Y, getCell (List.replicate (G.length * f)
        (List.replicate ((G.headD []).length * f) false)) X Y = false :=
      fun X Y => getCell_replicate _ _ X Y
    constructor
    · rintro (h0 | ⟨hmem, hb1, hb2⟩)
      · rw [hrepl] at h0; cases h0
      · simp only [List.mem_flatMap, List.mem_range] at hmem
        obtain ⟨r, hr, c, hc, hx⟩ := hmem
        split_ifs at hx with hcell
        · simp only [List.mem_flatMap, List.mem_range, List.mem_map] at hx
          obtain ⟨dr, hdr, dc, hdc, heq⟩ := hx
          simp only [Prod.mk.injEq] at heq
          obtain ⟨hReq, hCeq⟩ := heq
          have hRlt : R < G.length * f := by
            rw [← hReq]
            calc r * f + dr < r * f + f := by omega
              _ = (r + 1) * f := by ring
              _ ≤ G.length * f := Nat.mul_le_mul_right f (by omega)
          have hClt : C < (G.headD []).length * f := by
            rw [← hCeq]
            calc c * f + dc < c * f + f := by omega
              _ = (c + 1) * f := by ring
              _ ≤ (G.headD []).length * f := Nat.mul_le_mul_right f (by omega)
          have hRdiv : R / f = r := by
            rw [← hReq, Nat.mul_comm r f, Nat.mul_add_div (by omega),
              Nat.div_eq_of_lt hdr]
            omega
          have hCdiv : C / f = c := by
            rw [← hCeq, Nat.mul_comm c f, Nat.mul_add_div (by omega),
              Nat.div_eq_of_lt hdc]
            omega
          rw [hRdiv, hCdiv]
          exact ⟨hRlt, hClt, hcell⟩
        · simp at hx
    · rintro ⟨hR, hC, hcell⟩
      refine Or.inr ⟨?_, ?_, ?_⟩
      · simp only [List.mem_flatMap, List.mem_range]
        refine ⟨R / f, ?_, C / f, ?_, ?_⟩
        · exact (Nat.div_lt_iff_lt_mul (by omega)).mpr hR
        · exact (Nat.div_lt_iff_lt_mul (by omega)).mpr hC
        · rw [if_pos hcell]
          simp only [List.mem_flatMap, List.mem_range, List.mem_map]
          refine ⟨R % f, Nat.mod_lt _ (by omega), C % f, Nat.mod_lt _ (by omega), ?_⟩
          simp only [Prod.mk.injEq]
          constructor
          · rw [Nat.mul_comm]
            exact Nat.div_add_mod R f
          · rw [Nat.mul_comm]
            exact Nat.div_add_mod C f
      · simpa using hR
      · rw [getD_replicate, if_pos (by simpa using hR)]
        simpa using hC

/-- The decoded grid of a scaled frame is the nearest-neighbour enlargement
of the decoded grid of the source frame, provided the frame is empty or its
decoded grid has at least one column. -/
theorem scaleFrame_eq (frame : Text) (f : Nat) (hf : 2 ≤ f)
    (hgood : frame = [] ∨ (braille_to_grid frame).headD [] ≠ []) :
    braille_to_grid (scaleFrame frame f) = enlargeSpec (braille_to_grid frame) f := by
  rcases hgood with rfl | hwide
  · have hb : braille_to_grid ([] : Text) = [] := rfl
    have hsf : scaleFrame [] f = [] := by
      simp [scaleFrame, hb, make_grid, grid_to_braille]
    rw [hsf, hb]
    have he : enlargeSpec ([] : Grid) f = [] := by simp [enlargeSpec]
    rw [he]
  · have hframe_ne : frame ≠ [] := by
      intro h
      rw [h] at hwide
      exact hwide rfl
    have hLlen : (braille_to_grid frame).length = 4 * (splitlines frame).length :=
      braille_to_grid_length frame hframe_ne
    have hL1 : 1 ≤ (splitlines frame).length :=
      List.length_pos.mpr (splitlines_ne_nil frame hframe_ne)
    have hGne : braille_to_grid frame ≠ [] := by
      intro hx
      rw [hx] at hLlen
      simp only [List.length_nil] at hLlen
      omega
    have hw : ((braille_to_grid frame).headD []).length =
        2 * (splitlines frame).foldl (fun m l => max m l.length) 0 := by
      rw [headD_eq_getD_zero, braille_to_grid_rowlen frame hframe_ne 0, if_pos (by omega)]
    have hw1 : 1 ≤ ((braille_to_grid frame).headD []).length := List.length_pos.mpr hwide
    simp only [scaleFrame]
    rw [scale_fold_eq (braille_to_grid frame) f (by omega) hGne hw1]
    apply roundtrip_core (enlargeSpec (braille_to_grid frame) f)
      (((braille_to_grid frame).headD []).length * f)
    · intro row hrow
      rw [List.mem_iff_getElem] at hrow
      obtain ⟨i, hi, rfl⟩ := hrow
      have hx := enlargeSpec_rowlen (braille_to_grid frame) f i
      rw [getD_lt _ _ _ hi] at hx
      rw [hx, if_pos (by rw [enlargeSpec_length] at hi; exact hi)]
    · intro hx
      have hy := enlargeSpec_length (braille_to_grid frame) f
      rw [hx] at hy
      simp only [List.length_nil] at hy
      rcases Nat.mul_eq_zero.mp hy.symm with h | h <;> omega
    · rw [enlargeSpec_length]
      have hx : (braille_to_grid frame).length * f =
          4 * ((splitlines frame).length * f) := by
        rw [hLlen]
        ring
      omega
    · have hx : ((braille_to_grid frame).headD []).length * f =
          2 * ((splitlines frame).foldl (fun m l => max m l.length) 0 * f) := by
        rw [hw]
        ring
      omega
    · have hfold1 : 1 ≤ (splitlines frame).foldl (fun m l => max m l.length) 0 := by omega
      have hx : ((braille_to_grid frame).headD []).length * f =
          2 * ((splitlines frame).foldl (fun m l => max m l.length) 0 * f) := by
        rw [hw]
        ring
      have hy : 1 ≤ (splitlines frame).foldl (fun m l => max m l.length) 0 * f :=
        Nat.mul_pos (by omega) (by omega)
      omega

/-! ### Encoder shape lemmas -/

theorem encode_zero_cols (g : Grid) (h0 : ∀ row ∈ g, row.length = 0) :
    grid_to_braille g = [] := by
  cases hg : g with
  | nil => rfl
  | cons row rest =>
    rw [← hg]
    simp only [grid_to_braille]
    rw [if_neg (by simp [isEmpty_false_of_ne_nil g (by rw [hg]; simp)])]
    rw [maxRowLen_rect g 0 h0 (by rw [hg]; simp), if_pos rfl]

theorem encode_single (g : Grid) (cols : Nat) (hrect : Rect g cols) (h1 : 1 ≤ g.length)
    (h4 : g.length ≤ 4) (hcols1 : 1 ≤ cols) :
    grid_to_braille g = grid_chunk_to_braille g cols := by
  have hne : g ≠ [] := by
    intro hx
    rw [hx] at h1
    simp at h1
  simp only [grid_to_braille]
  rw [if_neg (by simp [isEmpty_false_of_ne_nil g hne]),
    maxRowLen_rect g cols hrect hne, if_neg (by omega), if_pos h4]

theorem pad_chunk_form (c : Grid) (cols : Nat) (hle : c.length ≤ 4) :
    (if c.length < 4 then c ++ List.replicate (4 - c.length) (List.replicate cols false)
     else c) = c ++ List.replicate (4 - c.length) (List.replicate cols false) := by
  split_ifs with h
  · rfl
  · rw [(by omega : 4 - c.length = 0), List.replicate_zero, List.append_nil]

theorem encode_multiline_join (g : Grid) (cols : Nat) (hrect : Rect g cols)
    (hgt : 4 < g.length) (hcols1 : 1 ≤ cols) :
    grid_to_braille g = joinNl ((List.range ((g.length + 3) / 4)).map (fun i =>
      grid_chunk_to_braille
        (((g.drop (4 * i)).take 4) ++
          List.replicate (4 - ((g.drop (4 * i)).take 4).length)
            (List.replicate cols false)) cols)) := by
  have hne : g ≠ [] := by
    intro hx
    rw [hx] at hgt
    simp at hgt
  simp only [grid_to_braille]
  rw [if_neg (by simp [isEmpty_false_of_ne_nil g hne]),
    maxRowLen_rect g cols hrect hne, if_neg (by omega), if_neg (by omega), List.map_map]
  apply congrArg joinNl
  apply List.map_congr_left
  intro i hi
  simp only [Function.comp_apply]
  rw [pad_chunk_form _ cols (by rw [List.length_take]; omega)]

theorem splitlines_encode_multiline (g : Grid) (cols : Nat) (hrect : Rect g cols)
    (hgt : 4 < g.length) (hcols1 : 1 ≤ cols) :
    splitlines (grid_to_braille g) =
      (List.range ((g.length + 3) / 4)).map (fun i =>
        grid_chunk_to_braille
          (((g.drop (4 * i)).take 4) ++
            List.replicate (4 - ((g.drop (4 * i)).take 4).length)
              (List.replicate cols false)) cols) := by
  rw [encode_multiline_join g cols hrect hgt hcols1]
  apply splitlines_joinNl
  · intro hx
    have := congrArg List.length hx
    simp only [List.length_map, List.length_range, List.length_nil] at this
    omega
  · intro l hl
    rw [List.mem_map] at hl
    obtain ⟨i, _, rfl⟩ := hl
    exact ⟨chunkEnc_ne_nil _ _ hcols1, chunkEnc_no10 _ _⟩

theorem foldl_of_id {α β : Type} (f : β → α → β) (l : List α) (b : β)
    (h : ∀ x ∈ l, ∀ b, f b x = b) : l.foldl f b = b := by
  induction l generalizing b with
  | nil => rfl
  | cons x l ih =>
    rw [List.foldl_cons, h x (List.mem_cons_self _ _)]
    exact ih b (fun y hy b => h y (List.mem_cons_of_mem _ hy) b)

/-- Appending all-false rows to a grid of at most 4 total rows does not
change any encoded cell value. -/
theorem cellCode_append_zrows (g : Grid) (cols k c : Nat) (hle : g.length + k ≤ 4) :
    cellCode (g ++ List.replicate k (List.replicate cols false)) c = cellCode g c := by
  unfold cellCode
  have hlen : (g ++ List.replicate k (List.replicate cols false)).length = g.length + k := by
    simp
  rw [hlen, Nat.min_eq_right hle, Nat.min_eq_right (by omega), List.range_add,
    List.foldl_append]
  have hmain : ∀ (b : Nat),
      (List.range g.length).foldl
        (fun code r =>
          (List.range 2).foldl
            (fun code d =>
              let row := (g ++ List.replicate k (List.replicate cols false)).getD r []
              let col := c * 2 + d
              if col < row.length ∧ row.getD col false then code ||| dotBit r d else code)
            code) b =
      (List.range g.length).foldl
        (fun code r =>
          (List.range 2).foldl
            (fun code d =>
              let row := g.getD r []
              let col := c * 2 + d
              if col < row.length ∧ row.getD col false then code ||| dotBit r d else code)
            code) b := by
    intro b
    apply List.foldl_ext
    intro code r hr
    rw [List.mem_range] at hr
    have hrow : (g ++ List.replicate k (List.replicate cols false)).getD r [] =
        g.getD r [] := by
      rw [getD_lt _ _ _ (by rw [hlen]; omega), getD_lt _ _ _ hr,
        List.getElem_append_left hr]
    rw [hrow]
  rw [hmain]
  apply foldl_of_id
  intro x hx b
  rw [List.mem_map, ] at hx
  obtain ⟨j, hj, rfl⟩ := hx
  rw [List.mem_range] at hj
  have hrow : (g ++ List.replicate k (List.replicate cols false)).getD (g.length + j) [] =
      List.replicate cols false := by
    rw [getD_lt _ _ _ (by rw [hlen]; omega)]
    rw [List.getElem_append_right (by omega)]
    simp
  apply foldl_of_id
  intro d hd b
  simp only [hrow]
  rw [if_neg]
  intro hcontra
  have := hcontra.2
  rw [getD_replicate] at this
  split_ifs at this

/-- Zero-padding the final band: encoding a rectangular grid is unchanged by
appending the all-false rows that complete the last 4-row band. -/
theorem encode_pad_eq (g : Grid) (cols : Nat) (hrect : Rect g cols) :
    grid_to_braille (g ++ List.replicate ((4 - g.length % 4) % 4)
      (List.replicate cols false)) = grid_to_braille g := by
  by_cases hmod : g.length % 4 = 0
  · rw [(by omega : (4 - g.length % 4) % 4 = 0), List.replicate_zero, List.append_nil]
  · have hg1 : 1 ≤ g.length := by omega
    have hne : g ≠ [] := by
      intro hx
      rw [hx] at hg1
      simp at hg1
    have hrect' : Rect (g ++ List.replicate ((4 - g.length % 4) % 4)
        (List.replicate cols false)) cols := by
      intro row hrow
      rcases List.mem_append.mp hrow with h | h
      · exact hrect row h
      · rw [List.eq_of_mem_replicate h]
        simp
    have hlen' : (g ++ List.replicate ((4 - g.length % 4) % 4)
        (List.replicate cols false)).length = g.length + (4 - g.length % 4) % 4 := by
      simp
    by_cases hcols : cols = 0
    · subst hcols
      rw [encode_zero_cols _ (fun row hrow => by
          rcases List.mem_append.mp hrow with h | h
          · exact hrect row h
          · rw [List.eq_of_mem_replicate h]; simp),
        encode_zero_cols g (fun row hrow => hrect row hrow)]
    · have hcols1 : 1 ≤ cols := by omega
      rcases le_or_lt g.length 4 with hle | hgt
      · have hpadeq : (4 - g.length % 4) % 4 = 4 - g.length := by omega
        rw [hpadeq] at hrect' hlen' ⊢
        rw [encode_single _ cols hrect' (by omega) (by rw [hlen']; omega) hcols1,
          encode_single g cols hrect hg1 hle hcols1]
        unfold grid_chunk_to_braille
        apply List.map_congr_left
        intro c _
        exact cellCode_append_zrows g cols (4 - g.length) c (by omega)
      · have hgt' : 4 < (g ++ List.replicate ((4 - g.length % 4) % 4)
            (List.replicate cols false)).length := by
          rw [hlen']
          omega
        rw [encode_multiline_join _ cols hrect' hgt' hcols1,
          encode_multiline_join g cols hrect hgt hcols1]
        apply congrArg joinNl
        rw [hlen', (by omega : (g.length + (4 - g.length % 4) % 4 + 3) / 4 =
          (g.length + 3) / 4)]
        apply List.map_congr_left
        intro i hi
        rw [List.mem_range] at hi
        have hdropin : 4 * i ≤ g.length := by omega
        have hdrop : (g ++ List.replicate ((4 - g.length % 4) % 4)
            (List.replicate cols false)).drop (4 * i) =
            g.drop (4 * i) ++ List.replicate ((4 - g.length % 4) % 4)
              (List.replicate cols false) :=
          List.drop_append_of_le_length hdropin
        rcases le_or_lt (4 * i + 4) g.length with hfull | hlast
        · rw [hdrop, List.take_append_of_le_length (by rw [List.length_drop]; omega)]
        · have hm : 1 ≤ g.length - 4 * i := by omega
          have htotal : ((g.drop (4 * i)) ++ List.replicate ((4 - g.length % 4) % 4)
              (List.replicate cols false)).length = 4 := by
            rw [List.length_append, List.length_drop, List.length_replicate]
            omega
          rw [hdrop, List.take_of_length_le (le_of_eq htotal), htotal,
            List.take_of_length_le (by rw [List.length_drop]; omega)]
          rw [(by omega : (4 : Nat) - 4 = 0), List.replicate_zero, List.append_nil,
            List.length_drop, (by omega : 4 - (g.length - 4 * i) = (4 - g.length % 4) % 4)]

/-! ### Claims -/

/-- Claim C1, counterexample: the round trip fails as stated for a grid from
`make_grid(1, 2)` (row count not a multiple of 4): decoding its encoding
yields a 4-row grid, not the original 1-row grid. -/
theorem claim_C1_counterexample :
    braille_to_grid (grid_to_braille (make_grid 1 2)) ≠ make_grid 1 2 := by decide

/-- Claim C1 (amended): for every grid produced via construction
(`make_grid` then any subset of cells set) whose row count is a positive
multiple of 4 and whose column count is even and at least 2, decoding its
encoding returns the original grid: `braille_to_grid (grid_to_braille g) = g`. -/
theorem claim_C1 (g : Grid) (rows cols : Nat) (hrows : g.length = rows)
    (hrect : ∀ row ∈ g, row.length = cols) (h1 : 1 ≤ rows) (h4 : rows % 4 = 0)
    (heven : cols % 2 = 0) (h2 : 2 ≤ cols) :
    braille_to_grid (grid_to_braille g) = g :=
  roundtrip_core g cols hrect
    (by intro hx; rw [hx] at hrows; simp only [List.length_nil] at hrows; omega)
    (by omega) heven h2

/-- Claim C1 witness: the round trip at a concrete 4 by 2 grid. -/
theorem claim_C1_witness :
    braille_to_grid (grid_to_braille
      [[true, false], [false, false], [false, true], [true, true]]) =
      [[true, false], [false, false], [false, true], [true, true]] :=
  claim_C1 _ 4 2 rfl (by decide) (by decide) (by decide) (by decide) (by decide)

/-- Claim C2: encoding a 4 by 2 grid yields exactly one character whose
codepoint is `0x2800` plus the bitwise OR of the mapped bit of every set
dot, under the fixed map; in particular the 8 single-dot grids give the 8
single-bit codepoints, the all-false grid gives `U+2800` and the all-true
grid gives `U+28FF`. -/
theorem claim_C2 :
    (∀ (b1 b4 b2 b5 b3 b6 b7 b8 : Bool),
      grid_to_braille [[b1, b4], [b2, b5], [b3, b6], [b7, b8]] =
        [0x2800 + ((cond b1 0x01 0) ||| (cond b4 0x08 0) ||| (cond b2 0x02 0) |||
          (cond b5 0x10 0) ||| (cond b3 0x04 0) ||| (cond b6 0x20 0) |||
          (cond b7 0x40 0) ||| (cond b8 0x80 0))]) ∧
    grid_to_braille [[true, false], [false, false], [false, false], [false, false]] =
      [0x2801] ∧
    grid_to_braille [[false, false], [true, false], [false, false], [false, false]] =
      [0x2802] ∧
    grid_to_braille [[false, false], [false, false], [true, false], [false, false]] =
      [0x2804] ∧
    grid_to_braille [[false, true], [false, false], [false, false], [false, false]] =
      [0x2808] ∧
    grid_to_braille [[false, false], [false, true], [false, false], [false, false]] =
      [0x2810] ∧
    grid_to_braille [[false, false], [false, false], [false, true], [false, false]] =
      [0x2820] ∧
    grid_to_braille [[false, false], [false, false], [false, false], [true, false]] =
      [0x2840] ∧
    grid_to_braille [[false, false], [false, false], [false, false], [false, true]] =
      [0x2880] ∧
    grid_to_braille [[false, false], [false, false], [false, false], [false, false]] =
      [0x2800] ∧
    grid_to_braille [[true, true], [true, true], [true, true], [true, true]] =
      [0x28FF] := by
  refine ⟨?_, ?_⟩
  · decide
  · decide

/-- Claim C3: for every non-empty text of newline-separated lines of equal
positive length whose characters all lie in `U+2800`..`U+28FF` (no trailing
newline), re-encoding its decoding reproduces the text exactly. -/
theorem claim_C3 (ls : List Text) (n : Nat) (hne : ls ≠ []) (hn : 1 ≤ n)
    (hlen : ∀ l ∈ ls, l.length = n)
    (hch : ∀ l ∈ ls, ∀ ch ∈ l, 0x2800 ≤ ch ∧ ch ≤ 0x28FF) :
    grid_to_braille (braille_to_grid (joinNl ls)) = joinNl ls :=
  text_roundtrip_core ls n hne hn hlen hch

/-- Claim C3 witness: the text round trip at a concrete two-line text. -/
theorem claim_C3_witness :
    grid_to_braille (braille_to_grid (joinNl [[0x2801, 0x28FF], [0x2800, 0x2840]])) =
      joinNl [[0x2801, 0x28FF], [0x2800, 0x2840]] :=
  claim_C3 [[0x2801, 0x28FF], [0x2800, 0x2840]] 2 (by decide) (by decide)
    (by decide) (by decide)

/-- Claim C4, counterexample: for the spinner whose single frame is the text
consisting of one newline, scaling by 2 does not satisfy the claim: the
decoded scaled frame is the empty grid while the claimed enlargement of the
4 by 0 decoded grid of the source frame is an 8-row grid of empty rows. -/
theorem claim_C4_counterexample :
    braille_to_grid ((scale_spinner (Spinner.mk [[10]] 80) 2).frames.getD 0 []) ≠
      enlargeSpec (braille_to_grid [10]) 2 := by decide

/-- Claim C4 (amended): `scale_spinner s f` returns `s` itself for every
`f ≤ 1`; for every `f ≥ 2` it preserves the frame count and the interval,
and for every source frame that is empty or whose decoded grid has at least
one column, the decoded grid of the corresponding scaled frame is the source
decoded grid of that frame enlarged by the nearest-neighbour `f` by `f` block
replication (`enlargeSpec`). -/
theorem claim_C4 (s : Spinner) (f : Nat) :
    (f ≤ 1 → scale_spinner s f = s) ∧
    (2 ≤ f →
      (scale_spinner s f).frames.length = s.frames.length ∧
      (scale_spinner s f).interval = s.interval ∧
      ∀ i, i < s.frames.length →
        (s.frames.getD i [] = [] ∨ (braille_to_grid (s.frames.getD i [])).headD [] ≠ []) →
        braille_to_grid ((scale_spinner s f).frames.getD i []) =
          enlargeSpec (braille_to_grid (s.frames.getD i [])) f) := by
  constructor
  · intro h
    unfold scale_spinner
    rw [if_pos h]
  · intro hf
    have hframes : (scale_spinner s f).frames = s.frames.map (fun fr => scaleFrame fr f) := by
      unfold scale_spinner
      rw [if_neg (by omega)]
  
    refine ⟨by rw [hframes]; simp, by unfold scale_spinner; rw [if_neg (by omega)], ?_⟩
    intro i hi hgood
    rw [hframes, getD_lt _ _ _ (by simpa using hi), List.getElem_map,
      ← getD_lt _ _ [] hi]
    exact scaleFrame_eq _ f hf hgood

/-- Claim C4 witness: identity at factor 1 and the block-enlargement law at
factor 2, both at a concrete one-frame spinner. -/
theorem claim_C4_witness :
    scale_spinner (Spinner.mk [[0x2801]] 100) 1 = Spinner.mk [[0x2801]] 100 ∧
    braille_to_grid ((scale_spinner (Spinner.mk [[0x2801]] 100) 2).frames.getD 0 []) =
      enlargeSpec (braille_to_grid [0x2801]) 2 :=
  ⟨(claim_C4 (Spinner.mk [[0x2801]] 100) 1).1 (by decide),
   ((claim_C4 (Spinner.mk [[0x2801]] 100) 2).2 (by decide)).2.2 0 (by decide) (by decide)⟩

/-- Claim C5: the encoder maps the empty grid and any grid of all-empty rows
to the empty string; a rectangular grid with `1 ≤ rows ≤ 4` and `cols ≥ 1`
encodes to a single line of exactly `ceil(cols/2)` characters (no newline in
the output); a rectangular grid with `rows > 4` encodes to `ceil(rows/4)`
newline-joined lines of `ceil(cols/2)` characters each; encoding is
unchanged by zero-padding the grid with the all-false rows completing the
last 4-row band; and a 4 by 3 grid encodes to exactly 2 characters. -/
theorem claim_C5 (g : Grid) (cols : Nat) :
    grid_to_braille ([] : Grid) = [] ∧
    ((∀ row ∈ g, row.length = 0) → grid_to_braille g = []) ∧
    ((∀ row ∈ g, row.length = cols) → 1 ≤ g.length → g.length ≤ 4 → 1 ≤ cols →
      (grid_to_braille g).length = (cols + 1) / 2 ∧ (10 : Nat) ∉ grid_to_braille g) ∧
    ((∀ row ∈ g, row.length = cols) → 4 < g.length → 1 ≤ cols →
      (splitlines (grid_to_braille g)).length = (g.length + 3) / 4 ∧
      ∀ line ∈ splitlines (grid_to_braille g), line.length = (cols + 1) / 2) ∧
    ((∀ row ∈ g, row.length = cols) →
      grid_to_braille (g ++ List.replicate ((4 - g.length % 4) % 4)
        (List.replicate cols false)) = grid_to_braille g) ∧
    (grid_to_braille (List.replicate 4 (List.replicate 3 true))).length = 2 := by
  refine ⟨rfl, encode_zero_cols g, ?_, ?_, encode_pad_eq g cols, by decide⟩
  · intro hrect h1 h4 hc
    rw [encode_single g cols hrect h1 h4 hc]
    exact ⟨chunkEnc_length g cols, chunkEnc_no10 g cols⟩
  · intro hrect hgt hc
    rw [splitlines_encode_multiline g cols hrect hgt hc]
    constructor
    · simp
    · intro line hl
      rw [List.mem_map] at hl
      obtain ⟨i, _, rfl⟩ := hl
      exact chunkEnc_length _ _

/-- Claim C5 witness: the single-line width law at a concrete 4 by 3 grid,
the multi-line shape law at a concrete 9 by 2 grid, and the padding law at
the same grid. -/
theorem claim_C5_witness :
    ((grid_to_braille (List.replicate 4 (List.replicate 3 true))).length = (3 + 1) / 2 ∧
      (10 : Nat) ∉ grid_to_braille (List.replicate 4 (List.replicate 3 true))) ∧
    ((splitlines (grid_to_braille (List.replicate 9 (List.replicate 2 true)))).length =
        (9 + 3) / 4 ∧
      ∀ line ∈ splitlines (grid_to_braille (List.replicate 9 (List.replicate 2 true))),
        line.length = (2 + 1) / 2) ∧
    grid_to_braille (List.replicate 9 (List.replicate 2 true) ++
        List.replicate ((4 - (List.replicate 9 (List.replicate 2 true) : Grid).length % 4) % 4)
          (List.replicate 2 false)) =
      grid_to_braille (List.replicate 9 (List.replicate 2 true)) :=
  ⟨(claim_C5 (List.replicate 4 (List.replicate 3 true)) 3).2.2.1 (by decide) (by decide)
      (by decide) (by decide),
   (claim_C5 (List.replicate 9 (List.replicate 2 true)) 2).2.2.2.1 (by decide) (by decide)
      (by decide),
   (claim_C5 (List.replicate 9 (List.replicate 2 true)) 2).2.2.2.2.1 (by decide)⟩

/-- Claim C6: for every non-empty text with `L` lines whose longest line has
`n` characters, decoding yields a rectangular grid of exactly `4·L` rows and
`2·n` columns; line `i` populates only its own band, placing dot `(r, d)` of
its character at index `j` at grid position `(4·i + r, 2·j + d)` per the
fixed bit map; and the columns a shorter line does not cover are false, so
decoding never fails on ragged input. -/
theorem claim_C6 (t : Text) (ht : t ≠ []) :
    (braille_to_grid t).length = 4 * (splitlines t).length ∧
    (∀ row ∈ braille_to_grid t,
      row.length = 2 * (splitlines t).foldl (fun m l => max m l.length) 0) ∧
    (∀ i r j d, i < (splitlines t).length → r < 4 → d < 2 →
      j < ((splitlines t).getD i []).length →
      getCell (braille_to_grid t) (4 * i + r) (2 * j + d) =
        decide (pyLand ((((splitlines t).getD i []).getD j 0 : Int) - 0x2800)
          (dotBit r d) ≠ 0)) ∧
    (∀ i r c, i < (splitlines t).length → r < 4 →
      2 * ((splitlines t).getD i []).length ≤ c →
      getCell (braille_to_grid t) (4 * i + r) c = false) := by
  refine ⟨braille_to_grid_length t ht, ?_, ?_, ?_⟩
  · intro row hrow
    rw [List.mem_iff_getElem] at hrow
    obtain ⟨i, hi, rfl⟩ := hrow
    have hx := braille_to_grid_rowlen t ht i
    rw [getD_lt _ _ _ hi] at hx
    rw [hx, if_pos (by rw [braille_to_grid_length t ht] at hi; exact hi)]
  · intro i r j d hi hr hd hj
    apply bool_eq_decide
    rw [getCell_braille_to_grid t ht, (by omega : (4 * i + r) / 4 = i),
      (by omega : (4 * i + r) % 4 = r), getCell_braille_line,
      (by omega : (2 * j + d) / 2 = j), (by omega : (2 * j + d) % 2 = d)]
    constructor
    · rintro ⟨_, _, _, hbit⟩
      exact hbit
    · intro hbit
      exact ⟨by omega, hr, by omega, hbit⟩
  · intro i r c hi hr hc
    cases hcell : getCell (braille_to_grid t) (4 * i + r) c with
    | false => rfl
    | true =>
      exfalso
      have hx := (getCell_braille_to_grid t ht (4 * i + r) c).mp hcell
      rw [(by omega : (4 * i + r) / 4 = i), (by omega : (4 * i + r) % 4 = r)] at hx
      have hy := (getCell_braille_line _ r c).mp hx.2
      omega

/-- Claim C6 witness: dimensions and a dot placement at a concrete two-line
ragged text. -/
theorem claim_C6_witness :
    (braille_to_grid [0x2801, 0x28FF, 10, 0x2840]).length =
      4 * (splitlines [0x2801, 0x28FF, 10, 0x2840]).length ∧
    getCell (braille_to_grid [0x2801, 0x28FF, 10, 0x2840]) (4 * 1 + 3) (2 * 0 + 0) =
      decide (pyLand ((((splitlines [0x2801, 0x28FF, 10, 0x2840]).getD 1 []).getD 0 0 : Int)
        - 0x2800) (dotBit 3 0) ≠ 0) ∧
    getCell (braille_to_grid [0x2801, 0x28FF, 10, 0x2840]) (4 * 1 + 0) 2 = false :=
  ⟨(claim_C6 [0x2801, 0x28FF, 10, 0x2840] (by decide)).1,
   (claim_C6 [0x2801, 0x28FF, 10, 0x2840] (by decide)).2.2.1 1 3 0 0 (by decide)
      (by decide) (by decide) (by decide),
   (claim_C6 [0x2801, 0x28FF, 10, 0x2840] (by decide)).2.2.2 1 0 2 (by decide)
      (by decide) (by decide)⟩

/-- Claim C7, counterexample: the `Spinner` constructor admits a value with
an empty frame sequence and a non-positive interval, so the claimed
constructor-enforced invariants do not hold. -/
theorem claim_C7_counterexample :
    ¬ ((Spinner.mk [] 0).frames ≠ [] ∧ 0 < (Spinner.mk [] 0).interval ∧
      uniformFrames (Spinner.mk [] 0).frames) := by
  intro h
  exact h.1 rfl

/-- Claim C7 (amended): the `Spinner` constructor is a plain named tuple and
enforces no invariants: values with an empty frame sequence, a non-positive
interval, or frames of differing rendered widths can all be built. -/
theorem claim_C7 :
    (∃ s : Spinner, s.frames = [] ∧ s.interval ≤ 0) ∧
    (∃ s : Spinner, ¬ uniformFrames s.frames) := by
  refine ⟨⟨Spinner.mk [] 0, rfl, le_refl 0⟩,
    ⟨Spinner.mk [[0x2801], [0x2801, 0x2802]] 80, ?_⟩⟩
  intro h
  have hx := (h [0x2801] (by decide) [0x2801, 0x2802] (by decide)).1
  exact absurd hx (by decide)

/-- Claim C8: on a non-interactive stream, `start` writes the label followed
by a newline exactly once when the label is non-empty and nothing when it is
empty, leaves the state unchanged with no thread alive (not Running), and a
subsequent `stop` is a no-op that writes nothing. -/
theorem claim_C8 (spinner : Spinner) (text : Text) (color : Option Text)
    (scale : Nat) (symbol : Text) :
    ((LiveSpinner.make spinner text color false scale).start).2 =
      (if text.isEmpty then [] else text ++ [10]) ∧
    ((LiveSpinner.make spinner text color false scale).start).1 =
      LiveSpinner.make spinner text color false scale ∧
    ((LiveSpinner.make spinner text color false scale).start).1.threadAlive = false ∧
    LiveSpinner.stop ((LiveSpinner.make spinner text color false scale).start).1 symbol =
      (((LiveSpinner.make spinner text color false scale).start).1, []) := by
  refine ⟨?_, ?_, ?_, ?_⟩ <;>
    simp [LiveSpinner.make, LiveSpinner.start, LiveSpinner.stop]

theorem pyLines_ne_nil (frame : Text) : pyLines frame ≠ [] := by
  unfold pyLines
  cases h : splitlines frame
  · simp
  · simp

/-- Claim C9: frame formatting wraps each line in the colour escape prefix
and reset suffix only when a colour is configured, known, and the stream is
a terminal; otherwise every line passes through unmodified; a configured
non-empty label is appended space-separated to the first line only; and the
two concrete examples of the claim hold. -/
theorem claim_C9 (s : LiveSpinner) (frame : Text) :
    (((colorTruthy s.color && s.isatty) = false ∨ colorsGet (s.color.getD []) = []) →
      s.text = [] → format_frame s frame = joinNl (pyLines frame)) ∧
    (((colorTruthy s.color && s.isatty) = false ∨ colorsGet (s.color.getD []) = []) →
      s.text ≠ [] → ∀ l0 rest, pyLines frame = l0 :: rest → l0 ≠ [] →
      format_frame s frame = joinNl ((l0 ++ 32 :: s.text) :: rest)) ∧
    ((colorTruthy s.color && s.isatty) = true → colorsGet (s.color.getD []) ≠ [] →
      s.text = [] →
      format_frame s frame =
        joinNl ((pyLines frame).map (fun l => colorsGet (s.color.getD []) ++ l ++ RESET))) ∧
    format_frame (LiveSpinner.make (Spinner.mk [[0x280B]] 80) (sToCodes "Loading")
      none false 1) [0x280B] = [0x280B, 32] ++ sToCodes "Loading" ∧
    format_frame (LiveSpinner.make (Spinner.mk [[0x280B]] 80) (sToCodes "Loading")
      none false 1) [0x280B, 10, 0x2819] =
      [0x280B, 32] ++ sToCodes "Loading" ++ [10, 0x2819] := by
  refine ⟨?_, ?_, ?_, by decide, by decide⟩
  · intro hc ht
    simp only [format_frame]
    have hte : s.text.isEmpty = true := by rw [ht]; rfl
    rw [if_pos hte]
    rcases hc with hcf | hcode
    · rw [if_neg (by rw [hcf]; simp)]
    · by_cases hct : (colorTruthy s.color && s.isatty) = true
      · rw [if_pos hct, if_pos (by rw [hcode]; rfl)]
      · rw [if_neg hct]
  · intro hc ht l0 rest hpl hl0
    simp only [format_frame]
    have hte : s.text.isEmpty = false := isEmpty_false_of_ne_nil _ ht
    rw [if_neg (by rw [hte]; simp)]
    have hlines : (if (colorTruthy s.color && s.isatty) = true then
        (if (colorsGet (s.color.getD [])).isEmpty = true then pyLines frame
         else (pyLines frame).map (fun l => colorsGet (s.color.getD []) ++ l ++ RESET))
        else pyLines frame) = pyLines frame := by
      rcases hc with hcf | hcode
      · rw [if_neg (by rw [hcf]; simp)]
      · by_cases hct : (colorTruthy s.color && s.isatty) = true
        · rw [if_pos hct, if_pos (by rw [hcode]; rfl)]
        · rw [if_neg hct]
    rw [hlines, hpl]
    show joinNl ((if l0.isEmpty = true then s.text else l0 ++ 32 :: s.text) :: rest) = _
    rw [if_neg (by rw [isEmpty_false_of_ne_nil _ hl0]; simp)]
  · intro hct hcode hte0
    simp only [format_frame]
    rw [if_pos (show s.text.isEmpty = true by rw [hte0]; rfl), if_pos hct,
      if_neg (by rw [isEmpty_false_of_ne_nil _ hcode]; simp)]

/-- Claim C9 witness: the no-colour label law and the colour-wrapping law at
concrete states and frames. -/
theorem claim_C9_witness :
    format_frame (LiveSpinner.make (Spinner.mk [[0x280B]] 80) [] none false 1)
      [0x280B, 10, 0x2819] = joinNl (pyLines [0x280B, 10, 0x2819]) ∧
    format_frame (LiveSpinner.make (Spinner.mk [[0x280B]] 80) []
      (some (sToCodes "cyan")) true 1) [0x280B] =
      joinNl ((pyLines [0x280B]).map (fun l =>
        colorsGet ((some (sToCodes "cyan")).getD []) ++ l ++ RESET)) :=
  ⟨(claim_C9 (LiveSpinner.make (Spinner.mk [[0x280B]] 80) [] none false 1)
      [0x280B, 10, 0x2819]).1 (by decide) rfl,
   (claim_C9 (LiveSpinner.make (Spinner.mk [[0x280B]] 80) []
      (some (sToCodes "cyan")) true 1) [0x280B]).2.2.1 (by decide) (by decide) rfl⟩

/-- Claim C10, counterexample: with label "Loading", colour "cyan" and a TTY
stream, the empty-string frame (whose first line is empty) does not format
to exactly the label: colour wrapping makes the first line non-empty, so the
space separator is inserted. -/
theorem claim_C10_counterexample :
    (pyLines (format_frame (LiveSpinner.make (Spinner.mk [[0x280B]] 80)
      (sToCodes "Loading") (some (sToCodes "cyan")) true 1) [])).headD [] ≠
      sToCodes "Loading" := by decide

/-- Claim C10 (amended): with a non-empty label, the formatted first line is
exactly the label (no leading space) precisely when the first line is empty
after colour processing: when no colour wrapping applies and the first frame
line is empty, the separator is omitted; when colour wrapping applies, the
wrapped first line is non-empty, so the space separator is always present. -/
theorem claim_C10 (s : LiveSpinner) (frame : Text) :
    (s.text ≠ [] →
      ((colorTruthy s.color && s.isatty) = false ∨ colorsGet (s.color.getD []) = []) →
      (pyLines frame).headD [] = [] →
      format_frame s frame = joinNl (s.text :: (pyLines frame).tail)) ∧
    ((colorTruthy s.color && s.isatty) = true → colorsGet (s.color.getD []) ≠ [] →
      s.text ≠ [] →
      format_frame s frame = joinNl
        ((colorsGet (s.color.getD []) ++ (pyLines frame).headD [] ++ RESET ++ 32 :: s.text)
          :: ((pyLines frame).tail.map
            (fun l => colorsGet (s.color.getD []) ++ l ++ RESET)))) := by
  constructor
  · intro ht hc hhead
    cases hpl : pyLines frame with
    | nil => exact absurd hpl (pyLines_ne_nil frame)
    | cons l0 rest =>
      rw [hpl] at hhead
      simp only [List.headD_cons] at hhead
      simp only [format_frame]
      have hte : s.text.isEmpty = false := isEmpty_false_of_ne_nil _ ht
      rw [if_neg (by rw [hte]; simp)]
      have hlines : (if (colorTruthy s.color && s.isatty) = true then
          (if (colorsGet (s.color.getD [])).isEmpty = true then pyLines frame
           else (pyLines frame).map (fun l => colorsGet (s.color.getD []) ++ l ++ RESET))
          else pyLines frame) = pyLines frame := by
        rcases hc with hcf | hcode
        · rw [if_neg (by rw [hcf]; simp)]
        · by_cases hct : (colorTruthy s.color && s.isatty) = true
          · rw [if_pos hct, if_pos (by rw [hcode]; rfl)]
          · rw [if_neg hct]
      rw [hlines, hpl]
      show joinNl ((if l0.isEmpty = true then s.text else l0 ++ 32 :: s.text) :: rest) = _
      rw [if_pos (by rw [hhead]; rfl), List.tail_cons]
  · intro hct hcode ht
    cases hpl : pyLines frame with
    | nil => exact absurd hpl (pyLines_ne_nil frame)
    | cons l0 rest =>
      simp only [format_frame]
      have hte : s.text.isEmpty = false := isEmpty_false_of_ne_nil _ ht
      rw [if_neg (by rw [hte]; simp), if_pos hct,
        if_neg (by rw [isEmpty_false_of_ne_nil _ hcode]; simp), hpl, List.map_cons]
      show joinNl ((if (colorsGet (s.color.getD []) ++ l0 ++ RESET).isEmpty = true
          then s.text
          else (colorsGet (s.color.getD []) ++ l0 ++ RESET) ++ 32 :: s.text) ::
        rest.map (fun l => colorsGet (s.color.getD []) ++ l ++ RESET)) = _
      rw [if_neg (by
        rw [isEmpty_false_of_ne_nil _ (by
          cases hcg : colorsGet (s.color.getD []) with
          | nil => exact absurd hcg hcode
          | cons x xs => simp)]
        simp)]
      rw [List.headD_cons, List.tail_cons, List.append_assoc, List.append_assoc]

/-- Claim C10 witness: the separator is omitted for the empty frame when no
colour wrapping applies. -/
theorem claim_C10_witness :
    format_frame (LiveSpinner.make (Spinner.mk [[0x280B]] 80) (sToCodes "Loading")
      none false 1) [] = joinNl (sToCodes "Loading" :: (pyLines []).tail) :=
  (claim_C10 (LiveSpinner.make (Spinner.mk [[0x280B]] 80) (sToCodes "Loading")
    none false 1) []).1 (by decide) (by decide) rfl
